import Mathlib

/-!
# Lode test-result model — verification of the specification claims

This file gives a shallow embedding of the hierarchical test-result model of
the Lode desktop application and proves (or refutes) the specification
claims about it.

The `Test` class (its `build`, `mergeResults`, `debrief`, `render`,
`persist` methods) is embedded from `src/lib/frameworks/test.ts`.
The abstract `Nugget` base class, the `Status` aggregator and the
`Framework`/`Suite` lookup helpers are not part of the provided sources
(only their callers are), so those parts are modelled from the
specification; each such definition carries a doc comment starting with
`Modelled from the spec:`.

Timestamps (`new Date().toISOString()`) are modelled as natural numbers
passed explicitly (`now`), so that "current time" is an explicit input of
every operation that stamps a date.
-/

set_option autoImplicit false

namespace Lode

/-- Modelled from the spec: the closed status set of §4.3
(`status.ts` is not under `src/`).  Precedence when aggregating children:
`error` > `failed` > `warning` > `incomplete` > `passed` > `running` >
`queued` > `idle` > `empty`. -/
inductive Status where
  | idle
  | queued
  | running
  | passed
  | failed
  | incomplete
  | warning
  | error
  | empty
  deriving DecidableEq, Repr

/-- Modelled from the spec: the Status Aggregator (§4.3).  The parent status
is the highest-precedence status occurring among the children; an empty
child list yields `empty`. -/
def parseStatus (l : List Status) : Status :=
  if l = [] then .empty
  else if .error ∈ l then .error
  else if .failed ∈ l then .failed
  else if .warning ∈ l then .warning
  else if .incomplete ∈ l then .incomplete
  else if .passed ∈ l then .passed
  else if .running ∈ l then .running
  else if .queued ∈ l then .queued
  else if .idle ∈ l then .idle
  else .empty

/-- The `stats` payload carried by a result: the "first seen" and
"last run" timestamps (`stats.first`, `stats.last`). -/
structure Stats where
  first : Option Nat := none
  last : Option Nat := none
  deriving DecidableEq, Repr

/-- The `ITestResult` payload shape (`test.ts`): identity fields, an
optional status (reporters may omit it), feedback, stats and an optional
recursive list of child results.  `id` is optional here so that malformed
payloads (missing identity) are representable. -/
inductive TestResult where
  | mk (id : Option String) (name : String) (displayName : Option String)
       (status : Option Status) (feedback : Option String)
       (stats : Option Stats) (tests : Option (List TestResult))

namespace TestResult

def rid : TestResult → Option String
  | .mk i _ _ _ _ _ _ => i

def name : TestResult → String
  | .mk _ n _ _ _ _ _ => n

def displayName : TestResult → Option String
  | .mk _ _ d _ _ _ _ => d

def status : TestResult → Option Status
  | .mk _ _ _ s _ _ _ => s

def feedback : TestResult → Option String
  | .mk _ _ _ _ f _ _ => f

def stats : TestResult → Option Stats
  | .mk _ _ _ _ _ st _ => st

def tests : TestResult → Option (List TestResult)
  | .mk _ _ _ _ _ _ ts => ts

def withStatus (s : Option Status) : TestResult → TestResult
  | .mk i n d _ f st ts => .mk i n d s f st ts

def withStats (st : Option Stats) : TestResult → TestResult
  | .mk i n d s f _ ts => .mk i n d s f st ts

def withTests (ts : Option (List TestResult)) : TestResult → TestResult
  | .mk i n d s f st _ => .mk i n d s f st ts

/-- `stats.first` of a result payload (`get(result, 'stats.first')`). -/
def statsFirst (r : TestResult) : Option Nat :=
  (r.stats.getD {}).first

/-- `stats.last` of a result payload. -/
def statsLast (r : TestResult) : Option Nat :=
  (r.stats.getD {}).last

end TestResult

mutual

/-- Size of a result fragment, counting only the `tests` nesting (stats or
status updates do not change it); used as the termination measure of the
merge recursion. -/
def rsize : TestResult → Nat
  | .mk _ _ _ _ _ _ none => 1
  | .mk _ _ _ _ _ _ (some ts) => 1 + rsizeL ts

/-- Total `rsize` of a list of result fragments. -/
def rsizeL : List TestResult → Nat
  | [] => 0
  | r :: rs => rsize r + rsizeL rs

end

mutual

/-- Modelled from the spec: `Nugget.getRecursiveStatus` (the base class is
not under `src/`).  §4.2 step 1: a node's own status comes from the payload;
absent statuses of a parent payload are amended from its child results
(§4.3), and a leaf with no status is `idle`. -/
def getRecursiveStatus : TestResult → Status
  | .mk _ _ _ (some s) _ _ _ => s
  | .mk _ _ _ none _ _ (some (t :: ts)) => parseStatus (recStatusL (t :: ts))
  | .mk _ _ _ none _ _ _ => .idle

/-- Statuses of a list of child results, for `getRecursiveStatus`. -/
def recStatusL : List TestResult → List Status
  | [] => []
  | r :: rs => getRecursiveStatus r :: recStatusL rs

end

/-- Modelled from the spec: §7(a) — a payload missing its required identity
fields is handled by synthesizing an `error`-status node (with a generated
ephemeral id) rather than rejecting, so the user always sees something for
a node that was supposed to report. -/
def hydrateTestResult (r : TestResult) : TestResult :=
  match r.rid with
  | some _ => r
  | none =>
    .mk (some ("synthetic:" ++ r.name)) r.name r.displayName (some .error)
      r.feedback r.stats none

/-- `debrief` (test.ts:162): amend the result stats with the "last run"
date, i.e. now. -/
def stampLast (now : Nat) (r : TestResult) : TestResult :=
  r.withStats (some { r.stats.getD {} with last := some now })

/-- `Test.mergeResults` (test.ts:106-122): if the incoming result already
has the "first seen" property, let it prevail; otherwise set it from the
current existing result, or to the current date (a new test). -/
def mergeResults (now : Nat) (old : Option TestResult) (result : TestResult) : TestResult :=
  if result.statsFirst.isSome then result
  else
    result.withStats (some { result.stats.getD {} with
      first := some ((old.bind TestResult.statsFirst).getD now) })

/-- The mutable state of a `Test` node: the last merged result, the current
status, the selection/expansion/partial flags and the child nodes
(`Nugget.tests`). -/
inductive TestState where
  | mk (result : Option TestResult) (status : Status)
       (selected : Bool) (expanded : Bool) (partialFlag : Bool)
       (tests : List TestState)

namespace TestState

def result : TestState → Option TestResult
  | .mk r _ _ _ _ _ => r

def status : TestState → Status
  | .mk _ s _ _ _ _ => s

def selected : TestState → Bool
  | .mk _ _ sel _ _ _ => sel

def expanded : TestState → Bool
  | .mk _ _ _ e _ _ => e

def partialFlag : TestState → Bool
  | .mk _ _ _ _ p _ => p

def tests : TestState → List TestState
  | .mk _ _ _ _ _ ts => ts

def withResult (r : Option TestResult) : TestState → TestState
  | .mk _ s sel e p ts => .mk r s sel e p ts

def withStatus (s : Status) : TestState → TestState
  | .mk r _ sel e p ts => .mk r s sel e p ts

def withPartial (p : Bool) : TestState → TestState
  | .mk r s sel e _ ts => .mk r s sel e p ts

def withTests (ts : List TestState) : TestState → TestState
  | .mk r s sel e p _ => .mk r s sel e p ts

end TestState

/-- A freshly instantiated node, before its constructor merges the first
result into it. -/
def emptyState : TestState := .mk none .idle false false false []

/-- `Nugget.getId` seen as a total query: the id recorded in the node's
merged result, if any. -/
def gid (t : TestState) : Option String := t.result.bind TestResult.rid

/-- First-occurrence deduplication of a list of ids. -/
def firstDedup : List String → List String
  | [] => []
  | a :: as => a :: (firstDedup as).filter (fun b => decide (b ≠ a))

/-- Ids occurring in an incoming (hydrated) child-result list that match no
existing child: these spawn new child nodes, in order of first
occurrence. -/
def newIds (hs : List TestResult) (seen : List (Option String)) : List String :=
  (firstDedup (hs.filterMap TestResult.rid)).filter (fun a => decide (some a ∉ seen))

mutual

/-- `Test.build` (test.ts:89-98): amend the payload status recursively, merge
the result with the existing one, update the node status, and — only when
the payload carries a non-empty child list — debrief the children.
The child bookkeeping after debriefing (cleanup of children absent from the
payload, bottom-up status recomputation and the `partial` flag) is modelled
from the spec (§4.2 steps 3-4), since `Nugget.afterDebrief` is not under
`src/`. -/
def build (now : Nat) (r : TestResult) (cleanup : Bool) (t : TestState) : TestState :=
  let st := getRecursiveStatus r
  let r' := r.withStatus (some st)
  let res := mergeResults now t.result r'
  let t1 := (t.withResult (some res)).withStatus st
  match h : r.tests with
  | some (rc :: rcs) =>
    let hs := (rc :: rcs).map hydrateTestResult
    let merged := debriefTests now cleanup hs t.tests
    let merged2 :=
      if cleanup then
        merged.filter (fun c => decide (gid c ∈ hs.map TestResult.rid))
      else merged
    let pf :=
      if cleanup then false
      else !(t.tests.all (fun c => decide (gid c ∈ hs.map TestResult.rid)))
    ((t1.withTests merged2).withStatus (parseStatus (merged2.map TestState.status))).withPartial pf
  | _ => t1
  termination_by (rsize r, 0)
  decreasing_by
  all_goals
    rw [Prod.lex_def]
    dsimp only
    have h2 : rsize r = 1 + rsizeL (rc :: rcs) := by
      cases r with
      | mk i1 n1 d1 s1 f1 st1 ts1 =>
        simp only [TestResult.tests] at h
        subst h
        rfl
    have h1 : ∀ l : List TestResult, rsizeL (l.map hydrateTestResult) ≤ rsizeL l := by
      intro l
      induction l with
      | nil => exact Nat.le_refl _
      | cons x xs ih =>
        simp only [List.map_cons, rsizeL]
        have hx : rsize (hydrateTestResult x) ≤ rsize x := by
          cases x with
          | mk i1 n1 d1 s1 f1 st1 ts1 =>
            cases i1 with
            | none =>
              cases ts1 <;> simp only [hydrateTestResult, TestResult.rid, rsize] <;> omega
            | some a1 => simp [hydrateTestResult, TestResult.rid]
        omega
    have h3 := h1 (rc :: rcs)
    omega

/-- Modelled from the spec: `Nugget.debriefTests` — §4.2 step 2: recursively
merge each incoming child result into the corresponding existing child
(matched by id); results matching no existing child create new child nodes,
in first-occurrence order.  All results carrying the same id address the
same child, merged in payload order. -/
def debriefTests (now : Nat) (cleanup : Bool) (hs : List TestResult)
    (ts : List TestState) : List TestState :=
  ts.map (fun c =>
    debriefSlot now cleanup (hs.filter (fun s => decide (s.rid = gid c))) c) ++
  (newIds hs (ts.map gid)).map (fun a =>
    debriefSlot now cleanup (hs.filter (fun s => decide (s.rid = some a))) emptyState)
  termination_by (rsizeL hs, 2)
  decreasing_by
  all_goals
    rw [Prod.lex_def]
    dsimp only
    have hf : ∀ (p : TestResult → Bool) (l : List TestResult),
        rsizeL (l.filter p) ≤ rsizeL l := by
      intro p l
      induction l with
      | nil => exact Nat.le_refl _
      | cons x xs ih =>
        by_cases hp : p x
        · simp only [List.filter_cons, hp, if_true, rsizeL]
          omega
        · simp only [List.filter_cons, hp, Bool.false_eq_true, if_false, rsizeL]
          omega
    first
    | (have h1 := hf (fun s => decide (s.rid = gid c)) hs
       omega)
    | (have h1 := hf (fun s => decide (s.rid = some a)) hs
       omega)

/-- Debrief one child node with the (ordered) incoming results addressed to
it: each is stamped with the "last run" date and built into the child
(`ITest.debrief`, test.ts:160-168, applied per child by `debriefTests`). -/
def debriefSlot (now : Nat) (cleanup : Bool) : List TestResult → TestState → TestState
  | [], c => c
  | s :: sub, c => debriefSlot now cleanup sub (build now (stampLast now s) cleanup c)
  termination_by sub c => (rsizeL sub, 1)
  decreasing_by
  all_goals
    rw [Prod.lex_def]
    dsimp only
    have hx : 1 ≤ rsize s := by
      cases s with
      | mk i1 n1 d1 s1 f1 st1 ts1 => cases ts1 <;> simp [rsize]
    have hstamp : rsize (stampLast now s) = rsize s := by
      cases s with
      | mk i1 n1 d1 s1 f1 st1 ts1 => cases ts1 <;> rfl
    have hcons : rsizeL (s :: sub) = rsize s + rsizeL sub := rfl
    omega

end

/-- Modelled from the spec: `Nugget.updateStatus()` without an argument —
recompute the node's status from its children's current statuses (§4.3). -/
def updateStatus (t : TestState) : TestState :=
  t.withStatus (parseStatus (t.tests.map TestState.status))

/-- The ids represented in a fragment's (hydrated) child results; children
outside this set are untouched by a selective `build`. -/
def representedIds (r : TestResult) : List (Option String) :=
  ((r.tests.getD []).map hydrateTestResult).map TestResult.rid

/-- The hydrated child results carried by a fragment (empty when the
`tests` field is absent or empty). -/
def hydrTests (s : TestResult) : List TestResult :=
  (s.tests.getD []).map hydrateTestResult

/-- All hydrated child results carried by a sequence of fragments, in
order. -/
def joinHyd (sub : List TestResult) : List TestResult :=
  (sub.map hydrTests).flatten

/-- Whether a fragment carries a non-empty child list (the guard of the
child-debrief step, test.ts:95). -/
def hasKids (s : TestResult) : Bool :=
  match s.tests with
  | some (_ :: _) => true
  | _ => false

/-- The first-seen value recorded after merging a sequence of results into
a node whose current first-seen value is `f0`: a result carrying its own
first-seen overrides, all others inherit. -/
def chainF (sub : List TestResult) (f0 : Nat) : Nat :=
  sub.foldl (fun a s => (s.statsFirst).getD a) f0

/-- The first-seen value a node contributes to the next merge: its merged
result's first-seen, or the current time for a node with none. -/
def baseFirst (now : Nat) (c : TestState) : Nat :=
  (c.result.bind TestResult.statsFirst).getD now

/-- The merged result stored after debriefing one result `s` into a node
whose previous first-seen value is `f`. -/
def slotRes (now : Nat) (f : Nat) (s : TestResult) : TestResult :=
  let r' := (stampLast now s).withStatus (some (getRecursiveStatus (stampLast now s)))
  if s.statsFirst.isSome then r'
  else r'.withStats (some { r'.stats.getD {} with first := some f })

/-- The ids of a node list, in order. -/
def gids (ts : List TestState) : List (Option String) :=
  ts.map gid

/-- The evolution of a node's partial flag and child-id list while a
sequence of results is debriefed into it: each child-carrying result
recomputes the partial flag against the child ids present before it and
appends the ids it newly introduces. -/
def pwalk : List TestResult → Bool → List (Option String) → Bool × List (Option String)
  | [], p, G => (p, G)
  | s :: sub, p, G =>
    if hasKids s then
      pwalk sub
        (!(G.all (fun g => decide (g ∈ (hydrTests s).map TestResult.rid))))
        (G ++ (newIds (hydrTests s) G).map some)
    else pwalk sub p G

/-- Events a node may emit towards observers. -/
inductive Event where
  | debriefed
  deriving DecidableEq, Repr

/-- The state part of `Test.debrief` (test.ts:160-168): amend the result
stats with the "last run" date and time (i.e. now), then build. -/
def debrief (now : Nat) (r : TestResult) (cleanup : Bool) (t : TestState) : TestState :=
  build now (stampLast now r) cleanup t

/-- The promise returned by `Test.debrief`: the executor builds the test,
emits `debriefed`, and resolves; it would reject only if the executor threw
before resolving.  In the model every step of the executor is total, so the
promise always resolves with the new state and the emitted event. -/
def debriefPromise (now : Nat) (r : TestResult) (cleanup : Bool) (t : TestState) :
    Except String (TestState × List Event) :=
  .ok (debrief now r cleanup t, [.debriefed])

mutual

/-- Modelled from the spec: `Nugget.defaults` (not under `src/`) — the full
result tree with every status forced to the given one; `none` models the
`false` argument, which persists each node's current status (§6: persisted
state layout). -/
def defaults (st : Option Status) : TestResult → TestResult
  | .mk i n d s f stats tests =>
    .mk i n d (match st with | some x => some x | none => s) f stats
      (match tests with | none => none | some l => some (defaultsL st l))

/-- `defaults` over a list of child results. -/
def defaultsL (st : Option Status) : List TestResult → List TestResult
  | [] => []
  | r :: rs => defaults st r :: defaultsL st rs

end

/-- `Test.persist` (test.ts:71-73): prepare this test for persistence —
`this.defaults(this.result, status)`, where the `status` parameter defaults
to `'idle'` (`none` models passing `false`, keeping current statuses). -/
def persist (t : TestState) (st : Option Status := some .idle) : Option TestResult :=
  t.result.map (defaults st)

/-- `Nugget.countChildren`: structural query over the immediate child
sequence (modelled from the spec, §4.1). -/
def countChildren (t : TestState) : Nat := t.tests.length

/-- `Nugget.hasChildren`: whether the node has any immediate children
(modelled from the spec, §4.1). -/
def hasChildren (t : TestState) : Bool := decide (0 < countChildren t)

/-- The render payload sent to the renderer process: the defaults of the
merged result with the `tests` key omitted (modelled as `tests := none`),
plus the `hasChildren`, `selected` and `partial` flags. -/
structure RenderPayload where
  base : TestResult
  hasChildren : Bool
  selected : Bool
  partialFlag : Bool

/-- `Test.render` (test.ts:57-64): `omit({...defaults(result, status),
hasChildren, selected, partial}, 'tests')`. -/
def render (t : TestState) (st : Option Status := some .idle) : Option RenderPayload :=
  t.result.map (fun r =>
    { base := (defaults st r).withTests none
      hasChildren := hasChildren t
      selected := t.selected
      partialFlag := t.partialFlag })

mutual

/-- All `status` fields occurring in a result tree, in preorder. -/
def collectStatuses : TestResult → List (Option Status)
  | .mk _ _ _ s _ _ none => [s]
  | .mk _ _ _ s _ _ (some l) => s :: collectStatusesL l

/-- `collectStatuses` over a list of results. -/
def collectStatusesL : List TestResult → List (Option Status)
  | [] => []
  | r :: rs => collectStatuses r ++ collectStatusesL rs

end

/-- The tree owned by one `Framework`, as far as entity lookup is
concerned: its ordered list of suites. -/
structure FrameworkM where
  suites : List TestState

/-- Modelled from the spec: `Framework.getSuiteById` (not under `src/`) —
lookup of a suite by id among the framework's suites. -/
def getSuiteById (f : FrameworkM) (i : String) : Option TestState :=
  f.suites.find? (fun s => decide (gid s = some i))

/-- Modelled from the spec: `Nugget.findTest` (not under `src/`) — lookup of
a child test by id among a node's children. -/
def findTest (t : TestState) (i : String) : Option TestState :=
  t.tests.find? (fun c => decide (gid c = some i))

/-- What `entities` resolves with: the chain of visited nuggets and the
final one (both absent when no identifiers were requested). -/
structure EntitiesOut where
  nuggets : Option (List TestState)
  nugget : Option TestState

/-- The nugget-resolution loop of `entities` (main/index.ts:107-117): the
first identifier addresses a suite, all following identifiers address tests;
a missing nugget throws, which rejects the promise. -/
def walkNuggets (cur : TestState) (ids : List String) (acc : List TestState) :
    Except Unit (List TestState × TestState) :=
  match ids with
  | [] => .ok (acc, cur)
  | i :: rest =>
    match findTest cur i with
    | none => .error ()
    | some nxt => walkNuggets nxt rest (acc ++ [nxt])

/-- `entities` (main/index.ts:88-126): resolve the framework context and the
requested identifier chain; reject when the framework context or any
identifier on the chain cannot be found. -/
def entities (fw : Option FrameworkM) (ids : List String) : Except Unit EntitiesOut :=
  match fw with
  | none => .error ()
  | some f =>
    match ids with
    | [] => .ok ⟨none, none⟩
    | i :: rest =>
      match getSuiteById f i with
      | none => .error ()
      | some s =>
        (walkNuggets s rest [s]).map (fun p => ⟨some p.1, some p.2⟩)

/-- The response shape of the 'test-get' ipc handler. -/
structure TestGetOut where
  framework : Option FrameworkM
  nuggets : Option (List TestState)
  nugget : Option TestState

/-- The 'test-get' ipc handler (main/index.ts:472-490): on success returns
the rendered entities; if any entity is not found (the `entities` promise
rejected, or the handler dereferenced an absent `nuggets!`), the catch
branch returns a null framework and null nuggets, forcing the caller to
select a test again. -/
def testGet (fw : Option FrameworkM) (ids : List String) : TestGetOut :=
  match entities fw ids with
  | .ok e =>
    match e.nuggets, e.nugget with
    | some ns, some n => ⟨fw, some ns, some n⟩
    | _, _ => ⟨none, none, none⟩
  | .error _ => ⟨none, none, none⟩

/-- The nested `options` block of `SSHOptions` (ssh.ts:8-20); every key is
optional. -/
structure SSHConnOptions where
  BatchMode : Option String := none
  Compression : Option String := none
  DSAAuthentication : Option String := none
  LogLevel : Option String := none
  StrictHostKeyChecking : Option String := none
  UserKnownHostsFile : Option String := none
  ForwardAgent : Option String := none
  IdentitiesOnly : Option String := none
  ControlMaster : Option String := none
  ExitOnForwardFailure : Option String := none
  ConnectTimeout : Option Nat := none
  deriving DecidableEq, Repr

/-- `SSHOptions` (ssh.ts:3-21): host plus optional user, port, identity and
options. -/
structure SSHOptions where
  host : String := ""
  user : Option String := none
  port : Option Nat := none
  Identity : Option String := none
  options : Option SSHConnOptions := none
  deriving DecidableEq, Repr

/-- `SSH.defaults` (ssh.ts:25-41). -/
def sshDefaults : SSHOptions :=
  { host := ""
    user := some ""
    options := some
      { BatchMode := some "yes"
        Compression := some "yes"
        DSAAuthentication := some "yes"
        LogLevel := some "FATAL"
        StrictHostKeyChecking := some "no"
        UserKnownHostsFile := some "/dev/null"
        ForwardAgent := some "yes"
        IdentitiesOnly := some "yes"
        ControlMaster := some "no"
        ExitOnForwardFailure := some "yes"
        ConnectTimeout := some 10 } }

/-- Object-spread merge of the nested `options` blocks
(`{...this.defaults.options, ...connection!.options || {}}`): a key present
on the connection overrides the default. -/
def mergeConnOptions (d c : SSHConnOptions) : SSHConnOptions :=
  { BatchMode := c.BatchMode <|> d.BatchMode
    Compression := c.Compression <|> d.Compression
    DSAAuthentication := c.DSAAuthentication <|> d.DSAAuthentication
    LogLevel := c.LogLevel <|> d.LogLevel
    StrictHostKeyChecking := c.StrictHostKeyChecking <|> d.StrictHostKeyChecking
    UserKnownHostsFile := c.UserKnownHostsFile <|> d.UserKnownHostsFile
    ForwardAgent := c.ForwardAgent <|> d.ForwardAgent
    IdentitiesOnly := c.IdentitiesOnly <|> d.IdentitiesOnly
    ControlMaster := c.ControlMaster <|> d.ControlMaster
    ExitOnForwardFailure := c.ExitOnForwardFailure <|> d.ExitOnForwardFailure
    ConnectTimeout := c.ConnectTimeout <|> d.ConnectTimeout }

/-- JavaScript runtime errors relevant to the model. -/
inductive JsError where
  | typeError
  deriving DecidableEq, Repr

/-- The `SSH` constructor (ssh.ts:45-61).  When no connection argument is
given, the guarded fallback `this.connection = this.defaults` runs, but the
constructor then unconditionally evaluates `connection!.options` while
building the merged object — a property access on `undefined`, which throws
a TypeError at runtime (the non-null assertion only silences the compiler).
With a connection present, the spread merge
`{...this.defaults, ...connection!, options: {...}}` succeeds. -/
def sshConstructor (connection : Option SSHOptions) : Except JsError SSHOptions :=
  match connection with
  | none => .error .typeError
  | some c =>
    .ok
      { host := c.host
        user := c.user <|> sshDefaults.user
        port := c.port <|> sshDefaults.port
        Identity := c.Identity <|> sshDefaults.Identity
        options := some (mergeConnOptions (sshDefaults.options.getD {}) (c.options.getD {})) }

/-! Concrete fixtures: a small suite with two tests, used to evaluate the
theorems below on explicit inputs. -/

/-- Result of test A: passed. -/
def rA : TestResult := .mk (some "a") "A" none (some .passed) none none none

/-- Node state of test A after a run that passed. -/
def stA : TestState := .mk (some rA) .passed false false false []

/-- Result of test B: failed. -/
def rB : TestResult := .mk (some "b") "B" none (some .failed) none none none

/-- Node state of test B after a run that failed. -/
def stB : TestState := .mk (some rB) .failed false false false []

/-- Merged result of the suite node. -/
def rS : TestResult := .mk (some "s") "S" none (some .failed) none none none

/-- A suite with tests A (passed) and B (failed). -/
def suite0 : TestState := .mk (some rS) .failed false false false [stA, stB]

/-- A selective re-run fragment for the suite carrying only test A, which
passed again. -/
def fragA : TestResult := .mk (some "s") "S" none none none none (some [rA])

/-- The framework owning `suite0`, for entity lookups. -/
def fwFix : FrameworkM := ⟨[suite0]⟩

/-- A malformed fragment: the required identity field is missing. -/
def rBad : TestResult := .mk none "broken" none (some .passed) none none none

/-- A well-formed leaf result carrying no child results. -/
def rLeaf : TestResult := .mk (some "x") "X" none (some .passed) none none none

/-- An existing merged result whose "first seen" date is 1. -/
def rOld : TestResult := .mk (some "t") "T" none none none (some { first := some 1 }) none

/-- An incoming result carrying its own "first seen" date 2 (e.g. persisted
from store). -/
def rIncoming : TestResult := .mk (some "t") "T" none none none (some { first := some 2 }) none

/-- The node holding `rOld`. -/
def stOld : TestState := .mk (some rOld) .idle false false false []

/-- The render payload produced for `stA` with the default status argument. -/
def renderFixA : RenderPayload :=
  { base := (defaults (some .idle) rA).withTests none
    hasChildren := hasChildren stA
    selected := stA.selected
    partialFlag := stA.partialFlag }

/-! ## Basic lemmas about the accessors and updaters -/

namespace TestState

@[simp] theorem result_withResult (r : Option TestResult) (t : TestState) :
    (t.withResult r).result = r := by cases t; rfl

@[simp] theorem result_withStatus (s : Status) (t : TestState) :
    (t.withStatus s).result = t.result := by cases t; rfl

@[simp] theorem result_withPartial (p : Bool) (t : TestState) :
    (t.withPartial p).result = t.result := by cases t; rfl

@[simp] theorem result_withTests (ts : List TestState) (t : TestState) :
    (t.withTests ts).result = t.result := by cases t; rfl

@[simp] theorem status_withResult (r : Option TestResult) (t : TestState) :
    (t.withResult r).status = t.status := by cases t; rfl

@[simp] theorem status_withStatus (s : Status) (t : TestState) :
    (t.withStatus s).status = s := by cases t; rfl

@[simp] theorem status_withPartial (p : Bool) (t : TestState) :
    (t.withPartial p).status = t.status := by cases t; rfl

@[simp] theorem status_withTests (ts : List TestState) (t : TestState) :
    (t.withTests ts).status = t.status := by cases t; rfl

@[simp] theorem selected_withResult (r : Option TestResult) (t : TestState) :
    (t.withResult r).selected = t.selected := by cases t; rfl

@[simp] theorem selected_withStatus (s : Status) (t : TestState) :
    (t.withStatus s).selected = t.selected := by cases t; rfl

@[simp] theorem selected_withPartial (p : Bool) (t : TestState) :
    (t.withPartial p).selected = t.selected := by cases t; rfl

@[simp] theorem selected_withTests (ts : List TestState) (t : TestState) :
    (t.withTests ts).selected = t.selected := by cases t; rfl

@[simp] theorem expanded_withResult (r : Option TestResult) (t : TestState) :
    (t.withResult r).expanded = t.expanded := by cases t; rfl

@[simp] theorem expanded_withStatus (s : Status) (t : TestState) :
    (t.withStatus s).expanded = t.expanded := by cases t; rfl

@[simp] theorem expanded_withPartial (p : Bool) (t : TestState) :
    (t.withPartial p).expanded = t.expanded := by cases t; rfl

@[simp] theorem expanded_withTests (ts : List TestState) (t : TestState) :
    (t.withTests ts).expanded = t.expanded := by cases t; rfl

@[simp] theorem partialFlag_withResult (r : Option TestResult) (t : TestState) :
    (t.withResult r).partialFlag = t.partialFlag := by cases t; rfl

@[simp] theorem partialFlag_withStatus (s : Status) (t : TestState) :
    (t.withStatus s).partialFlag = t.partialFlag := by cases t; rfl

@[simp] theorem partialFlag_withPartial (p : Bool) (t : TestState) :
    (t.withPartial p).partialFlag = p := by cases t; rfl

@[simp] theorem partialFlag_withTests (ts : List TestState) (t : TestState) :
    (t.withTests ts).partialFlag = t.partialFlag := by cases t; rfl

@[simp] theorem tests_withResult (r : Option TestResult) (t : TestState) :
    (t.withResult r).tests = t.tests := by cases t; rfl

@[simp] theorem tests_withStatus (s : Status) (t : TestState) :
    (t.withStatus s).tests = t.tests := by cases t; rfl

@[simp] theorem tests_withPartial (p : Bool) (t : TestState) :
    (t.withPartial p).tests = t.tests := by cases t; rfl

@[simp] theorem tests_withTests (ts : List TestState) (t : TestState) :
    (t.withTests ts).tests = ts := by cases t; rfl

theorem ext {t u : TestState} (h1 : t.result = u.result) (h2 : t.status = u.status)
    (h3 : t.selected = u.selected) (h4 : t.expanded = u.expanded)
    (h5 : t.partialFlag = u.partialFlag) (h6 : t.tests = u.tests) : t = u := by
  cases t
  cases u
  simp only [result, status, selected, expanded, partialFlag, tests] at h1 h2 h3 h4 h5 h6
  subst h1 h2 h3 h4 h5 h6
  rfl

end TestState

namespace TestResult

@[simp] theorem rid_withStatus (s : Option Status) (r : TestResult) :
    (r.withStatus s).rid = r.rid := by cases r; rfl

@[simp] theorem rid_withStats (st : Option Stats) (r : TestResult) :
    (r.withStats st).rid = r.rid := by cases r; rfl

@[simp] theorem rid_withTests (ts : Option (List TestResult)) (r : TestResult) :
    (r.withTests ts).rid = r.rid := by cases r; rfl

@[simp] theorem rstatus_withStatus (s : Option Status) (r : TestResult) :
    (r.withStatus s).status = s := by cases r; rfl

@[simp] theorem status_withStats (st : Option Stats) (r : TestResult) :
    (r.withStats st).status = r.status := by cases r; rfl

@[simp] theorem stats_withStatus (s : Option Status) (r : TestResult) :
    (r.withStatus s).stats = r.stats := by cases r; rfl

@[simp] theorem stats_withStats (st : Option Stats) (r : TestResult) :
    (r.withStats st).stats = st := by cases r; rfl

@[simp] theorem rtests_withStatus (s : Option Status) (r : TestResult) :
    (r.withStatus s).tests = r.tests := by cases r; rfl

@[simp] theorem tests_withStats (st : Option Stats) (r : TestResult) :
    (r.withStats st).tests = r.tests := by cases r; rfl

@[simp] theorem rtests_withTests (ts : Option (List TestResult)) (r : TestResult) :
    (r.withTests ts).tests = ts := by cases r; rfl

@[simp] theorem name_withStatus (s : Option Status) (r : TestResult) :
    (r.withStatus s).name = r.name := by cases r; rfl

@[simp] theorem name_withStats (st : Option Stats) (r : TestResult) :
    (r.withStats st).name = r.name := by cases r; rfl

@[simp] theorem statsFirst_withStatus (s : Option Status) (r : TestResult) :
    (r.withStatus s).statsFirst = r.statsFirst := by
  simp [statsFirst]

@[simp] theorem statsLast_withStatus (s : Option Status) (r : TestResult) :
    (r.withStatus s).statsLast = r.statsLast := by
  simp [statsLast]

end TestResult

@[simp] theorem statsFirst_stampLast (now : Nat) (r : TestResult) :
    (stampLast now r).statsFirst = r.statsFirst := by
  cases h : r.stats <;> simp [stampLast, TestResult.statsFirst, h]

@[simp] theorem statsLast_stampLast (now : Nat) (r : TestResult) :
    (stampLast now r).statsLast = some now := by
  cases h : r.stats <;> simp [stampLast, TestResult.statsLast, h]

@[simp] theorem rid_stampLast (now : Nat) (r : TestResult) :
    (stampLast now r).rid = r.rid := by
  simp [stampLast]

@[simp] theorem tests_stampLast (now : Nat) (r : TestResult) :
    (stampLast now r).tests = r.tests := by
  simp [stampLast]

/-! ## Unfolding lemmas for the merge recursion -/

@[simp] theorem debriefSlot_nil (now : Nat) (cleanup : Bool) (c : TestState) :
    debriefSlot now cleanup [] c = c := by
  rw [debriefSlot.eq_def]

theorem debriefSlot_cons (now : Nat) (cleanup : Bool) (s : TestResult)
    (sub : List TestResult) (c : TestState) :
    debriefSlot now cleanup (s :: sub) c
      = debriefSlot now cleanup sub (build now (stampLast now s) cleanup c) := by
  rw [debriefSlot.eq_def]

theorem build_result (now : Nat) (r : TestResult) (cleanup : Bool) (t : TestState) :
    (build now r cleanup t).result
      = some (mergeResults now t.result (r.withStatus (some (getRecursiveStatus r)))) := by
  rw [build.eq_def]
  split <;> simp

theorem build_selected (now : Nat) (r : TestResult) (cleanup : Bool) (t : TestState) :
    (build now r cleanup t).selected = t.selected := by
  rw [build.eq_def]
  split <;> simp

theorem build_expanded (now : Nat) (r : TestResult) (cleanup : Bool) (t : TestState) :
    (build now r cleanup t).expanded = t.expanded := by
  rw [build.eq_def]
  split <;> simp

theorem build_tests_noKids {r : TestResult} (h : r.tests = none ∨ r.tests = some [])
    (now : Nat) (cleanup : Bool) (t : TestState) :
    (build now r cleanup t).tests = t.tests := by
  rw [build.eq_def]
  split
  · next rc rcs heq =>
    rcases h with h | h <;> rw [h] at heq <;> simp at heq
  · simp

theorem build_status_noKids {r : TestResult} (h : r.tests = none ∨ r.tests = some [])
    (now : Nat) (cleanup : Bool) (t : TestState) :
    (build now r cleanup t).status = getRecursiveStatus r := by
  rw [build.eq_def]
  split
  · next rc rcs heq =>
    rcases h with h | h <;> rw [h] at heq <;> simp at heq
  · simp

theorem build_partial_noKids {r : TestResult} (h : r.tests = none ∨ r.tests = some [])
    (now : Nat) (cleanup : Bool) (t : TestState) :
    (build now r cleanup t).partialFlag = t.partialFlag := by
  rw [build.eq_def]
  split
  · next rc rcs heq =>
    rcases h with h | h <;> rw [h] at heq <;> simp at heq
  · simp

theorem build_tests_kids {r : TestResult} {rc : TestResult} {rcs : List TestResult}
    (h : r.tests = some (rc :: rcs)) (now : Nat) (t : TestState) :
    (build now r false t).tests
      = debriefTests now false ((rc :: rcs).map hydrateTestResult) t.tests := by
  rw [build.eq_def]
  split
  · next rc' rcs' heq =>
    rw [h] at heq
    simp only [Option.some.injEq, List.cons.injEq] at heq
    obtain ⟨rfl, rfl⟩ := heq
    simp
  · next heq =>
    exact (heq rc rcs h).elim

theorem build_status_kids {r : TestResult} {rc : TestResult} {rcs : List TestResult}
    (h : r.tests = some (rc :: rcs)) (now : Nat) (cleanup : Bool) (t : TestState) :
    (build now r cleanup t).status
      = parseStatus ((build now r cleanup t).tests.map TestState.status) := by
  rw [build.eq_def]
  split
  · next rc' rcs' heq =>
    simp
  · next heq =>
    exact (heq rc rcs h).elim

theorem build_partial_kids {r : TestResult} {rc : TestResult} {rcs : List TestResult}
    (h : r.tests = some (rc :: rcs)) (now : Nat) (t : TestState) :
    (build now r false t).partialFlag
      = !(t.tests.all (fun c =>
          decide (gid c ∈ ((rc :: rcs).map hydrateTestResult).map TestResult.rid))) := by
  rw [build.eq_def]
  split
  · next rc' rcs' heq =>
    rw [h] at heq
    simp only [Option.some.injEq, List.cons.injEq] at heq
    obtain ⟨rfl, rfl⟩ := heq
    simp
  · next heq =>
    exact (heq rc rcs h).elim

/-! ## Claim theorems -/

/-- C10: constructing `SSH` with no connection argument throws a TypeError
(from dereferencing the undefined argument's `options`), so the
defaults-only fallback branch never yields a usable instance; the
constructor succeeds exactly when an explicit connection is supplied. -/
theorem ssh_constructor_requires_connection :
    sshConstructor none = .error .typeError ∧
    ∀ c : SSHOptions, ∃ s, sshConstructor (some c) = .ok s := by
  constructor
  · rfl
  · intro c
    exact ⟨_, rfl⟩

/-- C8: when a requested node id does not exist in the current tree, the
lookup signals a not-found condition — the `entities` promise rejects
(whether the miss is at the suite level or anywhere down the test chain),
and the 'test-get' handler answers with a null framework and null
nuggets — rather than returning a stale node. -/
theorem missing_entity_rejects_lookup :
    (∀ (fw : Option FrameworkM) (ids : List String) (e : Unit),
       entities fw ids = .error e → testGet fw ids = ⟨none, none, none⟩) ∧
    (∀ (f : FrameworkM) (i : String) (rest : List String),
       getSuiteById f i = none → entities (some f) (i :: rest) = .error ()) ∧
    (∀ (f : FrameworkM) (i : String) (rest : List String) (s : TestState),
       getSuiteById f i = some s → walkNuggets s rest [s] = .error () →
       entities (some f) (i :: rest) = .error ()) ∧
    (∀ (cur : TestState) (i : String) (rest : List String) (acc : List TestState),
       findTest cur i = none → walkNuggets cur (i :: rest) acc = .error ()) := by
  refine ⟨?_, ?_, ?_, ?_⟩
  · intro fw ids e h
    simp only [testGet, h]
  · intro f i rest h
    simp only [entities, h]
  · intro f i rest s h1 h2
    simp only [entities, h1, h2, Except.map]
  · intro cur i rest acc h
    simp only [walkNuggets, h]

/-- Witness for C8: in the fixture framework, requesting the existing suite
`s` and then a nonexistent test id rejects the lookup and makes 'test-get'
answer not-found. -/
theorem missing_entity_rejects_lookup_witness :
    entities (some fwFix) ["s", "zzz"] = .error () ∧
    testGet (some fwFix) ["s", "zzz"] = ⟨none, none, none⟩ := by
  have hw : walkNuggets suite0 ["zzz"] [suite0] = .error () :=
    missing_entity_rejects_lookup.2.2.2 suite0 "zzz" [] [suite0] (by rfl)
  have he : entities (some fwFix) ["s", "zzz"] = .error () :=
    missing_entity_rejects_lookup.2.2.1 fwFix "s" ["zzz"] suite0 (by rfl) hw
  exact ⟨he, missing_entity_rejects_lookup.1 _ _ () he⟩

/-- C5: status aggregation is a pure function of the child status multiset —
it is invariant under every permutation of the statuses, and recomputing a
node's status from its (unchanged) children twice yields the same state as
recomputing it once. -/
theorem aggregation_order_independent_and_idempotent :
    (∀ l l' : List Status, l.Perm l' → parseStatus l = parseStatus l') ∧
    (∀ t : TestState, updateStatus (updateStatus t) = updateStatus t) := by
  constructor
  · intro l l' hp
    by_cases h : l = []
    · subst h
      rw [hp.symm.eq_nil]
    · have h' : l' ≠ [] := by
        intro he
        subst he
        exact h hp.eq_nil
      simp only [parseStatus, if_neg h, if_neg h', hp.mem_iff]
  · intro t
    cases t
    rfl

/-- Witness for C5: the permutation of the two-status multiset
passed/warning aggregates identically in both orders. -/
theorem aggregation_order_independent_witness :
    ([Status.passed, Status.warning].Perm [Status.warning, Status.passed]) ∧
    parseStatus [Status.passed, Status.warning]
      = parseStatus [Status.warning, Status.passed] :=
  ⟨List.Perm.swap _ _ _,
   aggregation_order_independent_and_idempotent.1 _ _ (List.Perm.swap _ _ _)⟩

/-- C7: the payload produced by `render` never includes full descendant
payloads — the `tests` field is omitted — and instead carries the
`hasChildren`, `selected` and `partial` flags of the node. -/
theorem render_omits_descendant_payloads :
    ∀ (t : TestState) (st : Option Status) (p : RenderPayload),
      render t st = some p →
      p.base.tests = none ∧ p.hasChildren = hasChildren t ∧
      p.selected = t.selected ∧ p.partialFlag = t.partialFlag := by
  intro t st p h
  cases ht : t.result with
  | none => simp [render, ht] at h
  | some r =>
    have h' : p = { base := (defaults st r).withTests none
                    hasChildren := hasChildren t
                    selected := t.selected
                    partialFlag := t.partialFlag } := by
      apply Option.some.inj
      rw [← h, render, ht]
      rfl
    subst h'
    exact ⟨TestResult.rtests_withTests _ _, rfl, rfl, rfl⟩

/-- Witness for C7: rendering test A yields a payload with no `tests` field
and the node's flags. -/
theorem render_omits_descendant_payloads_witness :
    renderFixA.base.tests = none ∧ renderFixA.hasChildren = hasChildren stA ∧
    renderFixA.selected = stA.selected ∧ renderFixA.partialFlag = stA.partialFlag :=
  render_omits_descendant_payloads stA (some .idle) renderFixA rfl

/-- C9: a fragment whose `tests` field is absent or an empty array leaves
the node's existing children entirely untouched, for both cleanup modes:
`build` only enters the child-debrief step when the fragment carries a
non-empty child list (test.ts:95). -/
theorem build_without_child_results_preserves_children :
    ∀ (now : Nat) (r : TestResult) (cleanup : Bool) (t : TestState),
      r.tests = none ∨ r.tests = some [] →
      (build now r cleanup t).tests = t.tests := by
  intro now r cleanup t h
  unfold build
  split
  · next rc rcs heq =>
    rcases h with h | h <;> rw [h] at heq <;> simp at heq
  · next heq =>
    simp

/-- Witness for C9: building the suite from a leaf fragment with no child
results leaves its two children in place, with and without cleanup. -/
theorem build_without_child_results_preserves_children_witness :
    (build 7 rLeaf true suite0).tests = suite0.tests ∧
    (build 7 rLeaf false suite0).tests = suite0.tests :=
  ⟨build_without_child_results_preserves_children 7 rLeaf true suite0 (Or.inl rfl),
   build_without_child_results_preserves_children 7 rLeaf false suite0 (Or.inl rfl)⟩

theorem rsize_pos (r : TestResult) : 1 ≤ rsize r := by
  cases r with
  | mk i n d s f st ts => cases ts <;> simp [rsize]

theorem rsizeL_cons (r : TestResult) (rs : List TestResult) :
    rsizeL (r :: rs) = rsize r + rsizeL rs := rfl

theorem defaults_statuses_aux (n : Nat) :
    (∀ r : TestResult, rsize r ≤ n →
      (∀ s : Status, ∀ x ∈ collectStatuses (defaults (some s) r), x = some s) ∧
      collectStatuses (defaults none r) = collectStatuses r) ∧
    (∀ l : List TestResult, rsizeL l ≤ n →
      (∀ s : Status, ∀ x ∈ collectStatusesL (defaultsL (some s) l), x = some s) ∧
      collectStatusesL (defaultsL none l) = collectStatusesL l) := by
  induction n with
  | zero =>
    constructor
    · intro r hr
      have := rsize_pos r
      omega
    · intro l hl
      cases l with
      | nil =>
        constructor
        · intro s x hx
          simp [defaultsL, collectStatusesL] at hx
        · rfl
      | cons r rs =>
        have := rsize_pos r
        rw [rsizeL_cons] at hl
        omega
  | succ n ih =>
    have hA : ∀ r : TestResult, rsize r ≤ n + 1 →
        (∀ s : Status, ∀ x ∈ collectStatuses (defaults (some s) r), x = some s) ∧
        collectStatuses (defaults none r) = collectStatuses r := by
      intro r hr
      cases r with
      | mk i nm d s0 f st ts =>
        cases ts with
        | none =>
          constructor
          · intro s x hx
            simp only [defaults, collectStatuses, List.mem_singleton] at hx
            exact hx
          · rfl
        | some l =>
          have hl : rsizeL l ≤ n := by
            have hr' : rsize (TestResult.mk i nm d s0 f st (some l)) = 1 + rsizeL l := rfl
            omega
          constructor
          · intro s x hx
            simp only [defaults, collectStatuses, List.mem_cons] at hx
            rcases hx with hx | hx
            · exact hx
            · exact (ih.2 l hl).1 s x hx
          · simp only [defaults, collectStatuses]
            rw [(ih.2 l hl).2]
    refine ⟨hA, ?_⟩
    intro l hl
    cases l with
    | nil =>
      constructor
      · intro s x hx
        simp [defaultsL, collectStatusesL] at hx
      · rfl
    | cons r rs =>
      rw [rsizeL_cons] at hl
      have h1 : rsize r ≤ n + 1 := by omega
      have h2 : rsizeL rs ≤ n := by
        have := rsize_pos r
        omega
      constructor
      · intro s x hx
        simp only [defaultsL, collectStatusesL, List.mem_append] at hx
        rcases hx with hx | hx
        · exact (hA r h1).1 s x hx
        · exact (ih.2 rs h2).1 s x hx
      · simp only [defaultsL, collectStatusesL]
        rw [(hA r h1).2, (ih.2 rs h2).2]

/-- C6: `persist` called with its default argument returns the full merged
result tree with every status forced to `idle`; statuses other than `idle`
appear in the persisted output only when explicitly requested —
`persist t none` (the `persist(false)` call) keeps every node's current
status — so persisted state never claims a node is mid-run. -/
theorem persist_defaults_to_idle :
    (∀ t : TestState, persist t = t.result.map (defaults (some .idle))) ∧
    (∀ (t : TestState) (r : TestResult), persist t = some r →
      ∀ x ∈ collectStatuses r, x = some Status.idle) ∧
    (∀ t : TestState, (persist t none).map collectStatuses = t.result.map collectStatuses) := by
  refine ⟨fun t => rfl, ?_, ?_⟩
  · intro t r h x hx
    cases ht : t.result with
    | none => simp [persist, ht] at h
    | some r0 =>
      simp only [persist, ht, Option.map_some', Option.some.injEq] at h
      subst h
      exact ((defaults_statuses_aux (rsize r0)).1 r0 (Nat.le_refl _)).1 .idle x hx
  · intro t
    cases ht : t.result with
    | none => simp [persist, ht]
    | some r0 =>
      simp only [persist, ht, Option.map_some']
      exact congrArg some ((defaults_statuses_aux (rsize r0)).1 r0 (Nat.le_refl _)).2

/-- Witness for C6: persisting the node that holds `rOld` yields the
defaults of its result, whose single status is forced to `idle`. -/
theorem persist_defaults_to_idle_witness :
    persist stOld = some (defaults (some Status.idle) rOld) ∧
    some Status.idle ∈ collectStatuses (defaults (some Status.idle) rOld) ∧
    (some Status.idle : Option Status) = some Status.idle :=
  ⟨rfl, by decide,
   persist_defaults_to_idle.2.1 stOld (defaults (some Status.idle) rOld) rfl
     (some Status.idle) (by decide)⟩

/-- C2: for every result payload — including malformed ones — the promise
returned by `debrief` resolves (never rejects) with the merged state and
the `debriefed` event emitted once the merge completes; a payload missing
its identity fields is surfaced as an `error`-status node rather than a
propagated failure. -/
theorem debrief_always_resolves :
    (∀ (now : Nat) (r : TestResult) (cleanup : Bool) (t : TestState),
       debriefPromise now r cleanup t = .ok (debrief now r cleanup t, [.debriefed])) ∧
    (∀ rc : TestResult, rc.rid = none → (hydrateTestResult rc).status = some .error) ∧
    (∀ (now : Nat) (cleanup : Bool) (rc : TestResult) (c : TestState),
       rc.rid = none →
       (debriefSlot now cleanup [hydrateTestResult rc] c).status = .error) := by
  refine ⟨fun _ _ _ _ => rfl, ?_, ?_⟩
  · intro rc h
    cases rc with
    | mk i nm d s f st ts =>
      simp only [TestResult.rid] at h
      subst h
      rfl
  · intro now cleanup rc c h
    cases rc with
    | mk i nm d s f st ts =>
      simp only [TestResult.rid] at h
      subst h
      rw [debriefSlot_cons, debriefSlot_nil]
      have htests :
          (stampLast now (hydrateTestResult (TestResult.mk none nm d s f st ts))).tests
            = none := rfl
      rw [build_status_noKids (Or.inl htests)]
      rfl

/-- Witness for C2: debriefing a parent with the malformed `rBad` resolves,
and the slot debriefed from `rBad` is an error-status node. -/
theorem debrief_always_resolves_witness :
    debriefPromise 3 rBad true emptyState
      = .ok (debrief 3 rBad true emptyState, [.debriefed]) ∧
    rBad.rid = none ∧
    (hydrateTestResult rBad).status = some .error ∧
    (debriefSlot 3 false [hydrateTestResult rBad] emptyState).status = .error :=
  ⟨debrief_always_resolves.1 3 rBad true emptyState, rfl,
   debrief_always_resolves.2.1 rBad rfl,
   debrief_always_resolves.2.2 3 false rBad emptyState rfl⟩

@[simp] theorem statsFirst_withStats (st : Option Stats) (r : TestResult) :
    (r.withStats st).statsFirst = (st.getD {}).first := by
  simp [TestResult.statsFirst]

@[simp] theorem statsLast_withStats (st : Option Stats) (r : TestResult) :
    (r.withStats st).statsLast = (st.getD {}).last := by
  simp [TestResult.statsLast]

theorem mergeResults_of_first_isSome {r : TestResult} (h : r.statsFirst.isSome)
    (now : Nat) (old : Option TestResult) : mergeResults now old r = r := by
  simp [mergeResults, h]

theorem statsFirst_mergeResults_of_none {r : TestResult} (h : r.statsFirst = none)
    (now : Nat) (old : Option TestResult) :
    (mergeResults now old r).statsFirst
      = some ((old.bind TestResult.statsFirst).getD now) := by
  simp [mergeResults, h]

theorem statsLast_mergeResults (now : Nat) (old : Option TestResult) (r : TestResult) :
    (mergeResults now old r).statsLast = r.statsLast := by
  by_cases h : r.statsFirst.isSome
  · simp [mergeResults, h]
  · simp only [mergeResults, h, if_false, Bool.false_eq_true, statsLast_withStats,
      Option.getD_some]
    cases hs : r.stats <;> simp [TestResult.statsLast, hs]

theorem debrief_result (now : Nat) (r : TestResult) (cleanup : Bool) (t : TestState) :
    (debrief now r cleanup t).result
      = some (mergeResults now t.result
          ((stampLast now r).withStatus (some (getRecursiveStatus (stampLast now r))))) := by
  rw [debrief, build_result]

theorem debrief_statsLast (now : Nat) (r : TestResult) (cleanup : Bool) (t : TestState) :
    (debrief now r cleanup t).result.bind TestResult.statsLast = some now := by
  rw [debrief_result]
  simp [Option.bind, statsLast_mergeResults]

theorem debrief_statsFirst_of_none {r : TestResult} (h : r.statsFirst = none)
    (now : Nat) (cleanup : Bool) (t : TestState) :
    (debrief now r cleanup t).result.bind TestResult.statsFirst
      = some ((t.result.bind TestResult.statsFirst).getD now) := by
  rw [debrief_result]
  have h' : ((stampLast now r).withStatus
      (some (getRecursiveStatus (stampLast now r)))).statsFirst = none := by
    simp [h]
  simp [Option.bind, statsFirst_mergeResults_of_none h']

/-- C1 as stated is false on the code: `mergeResults` lets an incoming
"first seen" timestamp prevail over the existing node's one (the
persisted-from-store case, test.ts:107-111).  Here the existing node has
first-seen 1, the incoming result carries first-seen 2, and the merge keeps
2 instead of preserving 1. -/
theorem mergeResults_incoming_first_prevails :
    rOld.statsFirst = some 1 ∧
    (mergeResults 7 (some rOld) rIncoming).statsFirst ≠ rOld.statsFirst := by
  refine ⟨rfl, ?_⟩
  intro hcontra
  have h2 : (mergeResults 7 (some rOld) rIncoming).statsFirst = some 2 := rfl
  rw [h2] at hcontra
  simp [rOld, TestResult.statsFirst, TestResult.stats] at hcontra

/-- C1 (amended): merging keeps the incoming result's own first-seen
timestamp when it carries one; otherwise it preserves the existing node's
first-seen timestamp, or stamps the current time for a new test.
Consequently, debriefing the same Test twice with runner results (which
carry no first-seen) leaves `stats.first` at the value stamped by the first
debrief while `stats.last` advances to the time of the latest debrief. -/
theorem merge_first_seen_amended :
    (∀ (now : Nat) (old : Option TestResult) (r : TestResult),
       r.statsFirst.isSome → mergeResults now old r = r) ∧
    (∀ (now : Nat) (old : Option TestResult) (r : TestResult),
       r.statsFirst = none →
       (mergeResults now old r).statsFirst
         = some ((old.bind TestResult.statsFirst).getD now)) ∧
    (∀ (now1 now2 : Nat) (r1 r2 : TestResult) (t : TestState),
       r1.statsFirst = none → r2.statsFirst = none →
       ((debrief now2 r2 false (debrief now1 r1 false t)).result.bind TestResult.statsFirst
          = (debrief now1 r1 false t).result.bind TestResult.statsFirst) ∧
       ((debrief now1 r1 false t).result.bind TestResult.statsLast = some now1) ∧
       ((debrief now2 r2 false (debrief now1 r1 false t)).result.bind TestResult.statsLast
          = some now2)) := by
  refine ⟨fun now old r h => mergeResults_of_first_isSome h now old,
          fun now old r h => statsFirst_mergeResults_of_none h now old, ?_⟩
  intro now1 now2 r1 r2 t h1 h2
  have hfirst1 := debrief_statsFirst_of_none h1 now1 false t
  refine ⟨?_, debrief_statsLast now1 r1 false t, debrief_statsLast now2 r2 false _⟩
  rw [debrief_statsFirst_of_none h2 now2 false _, hfirst1]
  rfl

/-- Witness for C1 (amended): debriefing the leaf result twice, at times 5
then 9, keeps first-seen 5 and advances last-run to 9. -/
theorem merge_first_seen_amended_witness :
    rLeaf.statsFirst = none ∧
    ((debrief 9 rLeaf false (debrief 5 rLeaf false emptyState)).result.bind
        TestResult.statsFirst
      = (debrief 5 rLeaf false emptyState).result.bind TestResult.statsFirst) ∧
    ((debrief 5 rLeaf false emptyState).result.bind TestResult.statsLast = some 5) ∧
    ((debrief 9 rLeaf false (debrief 5 rLeaf false emptyState)).result.bind
        TestResult.statsLast = some 9) :=
  ⟨rfl, merge_first_seen_amended.2.2 5 9 rLeaf rLeaf emptyState rfl rfl⟩

/-- C4: with cleanup off (a selective/partial run), `build` leaves every
existing child whose id is not represented in the fragment unchanged, at
its original position.  In particular, on the A/B suite where A passed and
B failed, re-running only A (which passes again) leaves B `failed`
untouched, updates A from its debriefed result, and the suite aggregates to
`failed` with the partial flag set. -/
theorem selective_build_preserves_untouched_children :
    (∀ (now : Nat) (r : TestResult) (t : TestState) (c : TestState) (i : Nat),
       t.tests[i]? = some c → gid c ∉ representedIds r →
       (build now r false t).tests[i]? = some c) ∧
    ((build 10 fragA false suite0).tests[1]? = some stB ∧
     (build 10 fragA false suite0).tests[0]?
        = some (build 10 (stampLast 10 rA) false stA) ∧
     (build 10 (stampLast 10 rA) false stA).status = .passed ∧
     (build 10 fragA false suite0).status = .failed ∧
     (build 10 fragA false suite0).partialFlag = true) := by
  constructor
  · intro now r t c i hi hrep
    match hr : r.tests with
    | none =>
      rw [build_tests_noKids (Or.inl hr)]
      exact hi
    | some [] =>
      rw [build_tests_noKids (Or.inr hr)]
      exact hi
    | some (rc :: rcs) =>
      rw [build_tests_kids hr, debriefTests.eq_def]
      simp only [representedIds, hr, Option.getD_some] at hrep
      have hlt : i < t.tests.length := by
        by_contra hge
        push_neg at hge
        rw [List.getElem?_eq_none hge] at hi
        cases hi
      have hmaplen : i < (t.tests.map (fun c =>
          debriefSlot now false (((rc :: rcs).map hydrateTestResult).filter
            (fun s => decide (s.rid = gid c))) c)).length := by
        simpa using hlt
      rw [List.getElem?_append, if_pos hmaplen, List.getElem?_map, hi, Option.map_some']
      have hfilter : ((rc :: rcs).map hydrateTestResult).filter
          (fun s => decide (s.rid = gid c)) = [] := by
        rw [List.filter_eq_nil_iff]
        intro s hs hdec
        have hsid : s.rid = gid c := of_decide_eq_true hdec
        exact hrep (List.mem_map.2 ⟨s, hs, hsid⟩)
      rw [hfilter, debriefSlot_nil]
  · have hfragA : fragA.tests = some [rA] := rfl
    have h1 : [rA].map hydrateTestResult = [rA] := rfl
    have h2 : suite0.tests = [stA, stB] := rfl
    have h3 : [rA].filter (fun s => decide (s.rid = gid stA)) = [rA] := rfl
    have h4 : [rA].filter (fun s => decide (s.rid = gid stB)) = [] := rfl
    have h5 : newIds [rA] ([stA, stB].map gid) = [] := rfl
    have htests : (build 10 fragA false suite0).tests
        = [build 10 (stampLast 10 rA) false stA, stB] := by
      rw [build_tests_kids hfragA, h1, h2, debriefTests.eq_def]
      simp only [List.map_cons, List.map_nil]
      rw [h3, h4]
      rw [show ([stA, stB].map gid) = [gid stA, gid stB] from rfl] at h5
      rw [h5]
      simp only [List.map_nil, List.append_nil]
      rw [debriefSlot_cons, debriefSlot_nil, debriefSlot_nil]
    have hAtests : (stampLast 10 rA).tests = none := rfl
    have hAstatus : (build 10 (stampLast 10 rA) false stA).status = .passed := by
      rw [build_status_noKids (Or.inl hAtests)]
      rfl
    refine ⟨by rw [htests]; rfl, by rw [htests]; rfl, hAstatus, ?_, ?_⟩
    · rw [build_status_kids hfragA, htests]
      simp only [List.map_cons, List.map_nil, hAstatus]
      rfl
    · rw [build_partial_kids hfragA]
      rfl

/-- Witness for C4: in the A/B suite, child B (id `b`, not represented in
the selective fragment for A) is preserved unchanged at index 1. -/
theorem selective_build_preserves_untouched_children_witness :
    suite0.tests[1]? = some stB ∧ gid stB ∉ representedIds fragA ∧
    (build 10 fragA false suite0).tests[1]? = some stB :=
  ⟨rfl, by decide,
   selective_build_preserves_untouched_children.1 10 fragA suite0 stB 1 rfl (by decide)⟩

/-! ## Characterization of the merge recursion, towards idempotence (C3) -/

theorem rid_mergeResults (now : Nat) (old : Option TestResult) (r : TestResult) :
    (mergeResults now old r).rid = r.rid := by
  by_cases h : r.statsFirst.isSome <;> simp [mergeResults, h]

theorem gid_build (now : Nat) (r : TestResult) (cleanup : Bool) (t : TestState) :
    gid (build now r cleanup t) = r.rid := by
  rw [gid, build_result]
  simp [Option.bind, rid_mergeResults]

theorem getRecursiveStatus_stampLast (now : Nat) (s : TestResult) :
    getRecursiveStatus (stampLast now s) = getRecursiveStatus s := by
  cases s with
  | mk i n d st f sts ts =>
    cases st with
    | some x => rfl
    | none =>
      cases ts with
      | none => rfl
      | some l => cases l <;> rfl

theorem hasKids_stampLast (now : Nat) (s : TestResult) :
    hasKids (stampLast now s) = hasKids s := by
  unfold hasKids
  rw [tests_stampLast]

theorem hydrTests_stampLast (now : Nat) (s : TestResult) :
    hydrTests (stampLast now s) = hydrTests s := by
  unfold hydrTests
  rw [tests_stampLast]

theorem debriefSlot_append (now : Nat) (cl : Bool) (l1 l2 : List TestResult) (c : TestState) :
    debriefSlot now cl (l1 ++ l2) c = debriefSlot now cl l2 (debriefSlot now cl l1 c) := by
  induction l1 generalizing c with
  | nil => simp
  | cons s l1' ih =>
    rw [List.cons_append, debriefSlot_cons, debriefSlot_cons, ih]

theorem selected_debriefSlot (now : Nat) (cl : Bool) (sub : List TestResult) (c : TestState) :
    (debriefSlot now cl sub c).selected = c.selected := by
  induction sub generalizing c with
  | nil => simp
  | cons s sub' ih => rw [debriefSlot_cons, ih, build_selected]

theorem expanded_debriefSlot (now : Nat) (cl : Bool) (sub : List TestResult) (c : TestState) :
    (debriefSlot now cl sub c).expanded = c.expanded := by
  induction sub generalizing c with
  | nil => simp
  | cons s sub' ih => rw [debriefSlot_cons, ih, build_expanded]

theorem gid_debriefSlot (now : Nat) (cl : Bool) (g : Option String) :
    ∀ (sub : List TestResult) (c : TestState), (∀ s ∈ sub, s.rid = g) → sub ≠ [] →
      gid (debriefSlot now cl sub c) = g := by
  intro sub
  induction sub with
  | nil =>
    intro c h hne
    exact absurd rfl hne
  | cons s sub' ih =>
    intro c hall hne
    rw [debriefSlot_cons]
    cases hsub' : sub' with
    | nil =>
      subst hsub'
      rw [debriefSlot_nil, gid_build, rid_stampLast]
      exact hall s (by simp)
    | cons s2 sub'' =>
      subst hsub'
      exact ih _ (fun x hx => hall x (List.mem_cons_of_mem _ hx)) (by simp)

theorem gid_debriefSlot_of_gid (now : Nat) (cl : Bool) (g : Option String)
    (sub : List TestResult) (c : TestState) (hall : ∀ s ∈ sub, s.rid = g)
    (hc : gid c = g) : gid (debriefSlot now cl sub c) = g := by
  cases sub with
  | nil => simpa using hc
  | cons s sub' => exact gid_debriefSlot now cl g (s :: sub') c hall (by simp)

theorem statsFirst_build (now : Nat) (r : TestResult) (cl : Bool) (t : TestState) :
    (build now r cl t).result.bind TestResult.statsFirst
      = some ((r.statsFirst).getD (baseFirst now t)) := by
  rw [build_result]
  cases h : r.statsFirst with
  | some v =>
    have hs : ((r.withStatus (some (getRecursiveStatus r))).statsFirst).isSome := by
      simp [h]
    rw [mergeResults_of_first_isSome hs]
    simp [Option.bind, h]
  | none =>
    have hs : (r.withStatus (some (getRecursiveStatus r))).statsFirst = none := by
      simp [h]
    simp [Option.bind, statsFirst_mergeResults_of_none hs, baseFirst]

theorem baseFirst_build (now : Nat) (r : TestResult) (cl : Bool) (t : TestState) :
    baseFirst now (build now r cl t) = (r.statsFirst).getD (baseFirst now t) := by
  unfold baseFirst
  rw [statsFirst_build]
  rfl

theorem chainF_cons (s : TestResult) (sub : List TestResult) (f0 : Nat) :
    chainF (s :: sub) f0 = chainF sub ((s.statsFirst).getD f0) := rfl

theorem chainF_append (u v : List TestResult) (f0 : Nat) :
    chainF (u ++ v) f0 = chainF v (chainF u f0) := by
  unfold chainF
  rw [List.foldl_append]

theorem baseFirst_debriefSlot (now : Nat) (sub : List TestResult) (c : TestState) :
    baseFirst now (debriefSlot now false sub c) = chainF sub (baseFirst now c) := by
  induction sub generalizing c with
  | nil =>
    rw [debriefSlot_nil]
    rfl
  | cons s sub' ih =>
    rw [debriefSlot_cons, ih, chainF_cons, baseFirst_build, statsFirst_stampLast]

theorem chainF_pers (l : List TestResult) (x : Nat) :
    chainF l (chainF l x) = chainF l x := by
  induction l using List.reverseRecOn with
  | nil => rfl
  | append_singleton u s ih =>
    have hz : ∀ (w : List TestResult) (z : Nat), chainF (w ++ [s]) z
        = (s.statsFirst).getD (chainF w z) := by
      intro w z
      rw [chainF_append]
      rfl
    cases h : s.statsFirst with
    | some v => simp [hz, h]
    | none =>
      simp only [hz, h, Option.getD_none]
      rw [ih]

theorem mergeResults_replay (now : Nat) (old : Option TestResult) (r : TestResult) :
    mergeResults now (some (mergeResults now old r)) r = mergeResults now old r := by
  cases h : r.statsFirst with
  | some v =>
    have hs : r.statsFirst.isSome := by simp [h]
    rw [mergeResults_of_first_isSome hs, mergeResults_of_first_isSome hs]
  | none =>
    have hs : ¬ r.statsFirst.isSome := by simp [h]
    simp only [mergeResults, hs, if_false, Bool.false_eq_true]
    simp [Option.bind, h]

theorem mem_firstDedup (a : String) (l : List String) :
    a ∈ firstDedup l ↔ a ∈ l := by
  induction l with
  | nil => rfl
  | cons b bs ih =>
    by_cases hab : a = b
    · subst hab
      simp [firstDedup]
    · simp only [firstDedup, List.mem_cons, List.mem_filter, decide_eq_true_eq, ih]
      constructor
      · rintro (h | ⟨h, _⟩)
        · exact Or.inl h
        · exact Or.inr h
      · rintro (h | h)
        · exact Or.inl h
        · exact Or.inr ⟨h, hab⟩

theorem firstDedup_append (u v : List String) :
    firstDedup (u ++ v)
      = firstDedup u ++ (firstDedup v).filter (fun b => decide (b ∉ u)) := by
  induction u with
  | nil =>
    simp only [List.nil_append, firstDedup]
    rw [List.filter_eq_self.2]
    intro b hb
    simp
  | cons a u' ih =>
    simp only [List.cons_append, firstDedup, List.append_eq]
    rw [ih, List.filter_append]
    congr 1
    rw [List.filter_filter]
    congr 1
    apply List.filter_congr
    intro b hb
    by_cases hba : b = a <;> by_cases hbu : b ∈ u' <;>
      simp [hba, hbu, List.mem_cons]

theorem newIds_append (h1 h2 : List TestResult) (seen : List (Option String)) :
    newIds (h1 ++ h2) seen
      = newIds h1 seen ++ newIds h2 (seen ++ (newIds h1 seen).map some) := by
  unfold newIds
  rw [List.filterMap_append, firstDedup_append, List.filter_append]
  congr 1
  rw [List.filter_filter]
  apply List.filter_congr
  intro a ha
  by_cases hseen : some a ∈ seen
  · by_cases hi1 : a ∈ h1.filterMap TestResult.rid <;>
      simp [hseen, hi1, List.mem_append, List.mem_map, List.mem_filter, mem_firstDedup]
  · by_cases hi1 : a ∈ h1.filterMap TestResult.rid
    · obtain ⟨x, hx, hxid⟩ := List.mem_filterMap.1 hi1
      simp [hseen, hi1, List.mem_append, List.mem_map, List.mem_filter, mem_firstDedup]
      exact ⟨x, hx, hxid⟩
    · simp [hseen, hi1, List.mem_append, List.mem_map, List.mem_filter, mem_firstDedup]
      intro x hx hxid
      exact hi1 (List.mem_filterMap.2 ⟨x, hx, hxid⟩)

theorem gids_debriefTests (now : Nat) (hs : List TestResult) (ts : List TestState) :
    gids (debriefTests now false hs ts)
      = gids ts ++ (newIds hs (gids ts)).map some := by
  rw [debriefTests.eq_def]
  unfold gids
  rw [List.map_append, List.map_map, List.map_map]
  congr 1
  · apply List.map_congr_left
    intro c hc
    show gid (debriefSlot now false (hs.filter (fun s => decide (s.rid = gid c))) c) = gid c
    apply gid_debriefSlot_of_gid
    · intro s hsmem
      exact of_decide_eq_true (List.mem_filter.1 hsmem).2
    · rfl
  · apply List.map_congr_left
    intro a ha
    show gid (debriefSlot now false
        (hs.filter (fun s => decide (s.rid = some a))) emptyState) = some a
    have hmem : a ∈ hs.filterMap TestResult.rid := by
      unfold newIds at ha
      have h1 : a ∈ firstDedup (hs.filterMap TestResult.rid) := (List.mem_filter.1 ha).1
      exact (mem_firstDedup _ _).1 h1
    obtain ⟨x, hx, hxid⟩ := List.mem_filterMap.1 hmem
    have hfil : x ∈ hs.filter (fun s => decide (s.rid = some a)) :=
      List.mem_filter.2 ⟨hx, by simp [hxid]⟩
    have hne : hs.filter (fun s => decide (s.rid = some a)) ≠ [] := by
      intro h0
      rw [h0] at hfil
      cases hfil
    exact gid_debriefSlot now false (some a) _ emptyState
      (fun y hy => of_decide_eq_true (List.mem_filter.1 hy).2) hne

theorem debriefTests_append (now : Nat) (h1 h2 : List TestResult) (ts : List TestState) :
    debriefTests now false (h1 ++ h2) ts
      = debriefTests now false h2 (debriefTests now false h1 ts) := by
  have hgids := gids_debriefTests now h1 ts
  conv_lhs => rw [debriefTests.eq_def]
  conv_rhs => rw [debriefTests.eq_def]
  rw [show List.map gid (debriefTests now false h1 ts)
        = gids ts ++ (newIds h1 (gids ts)).map some from hgids]
  conv_rhs => rw [debriefTests.eq_def]
  rw [List.map_append, List.map_map, List.map_map, newIds_append]
  rw [List.map_append, List.append_assoc]
  congr 1
  · -- existing children: the two-step slot composes into the appended slot
    apply List.map_congr_left
    intro c hc
    show debriefSlot now false ((h1 ++ h2).filter (fun s => decide (s.rid = gid c))) c
      = debriefSlot now false (h2.filter (fun s => decide (s.rid =
          gid (debriefSlot now false (h1.filter (fun s => decide (s.rid = gid c))) c))))
          (debriefSlot now false (h1.filter (fun s => decide (s.rid = gid c))) c)
    have hg : gid (debriefSlot now false
        (h1.filter (fun s => decide (s.rid = gid c))) c) = gid c := by
      apply gid_debriefSlot_of_gid
      · intro s hsmem
        exact of_decide_eq_true (List.mem_filter.1 hsmem).2
      · rfl
    rw [hg, List.filter_append, debriefSlot_append]
  · congr 1
    · -- children newly created by h1, then updated by h2
      apply List.map_congr_left
      intro a ha
      show debriefSlot now false ((h1 ++ h2).filter (fun s => decide (s.rid = some a)))
            emptyState
        = debriefSlot now false (h2.filter (fun s => decide (s.rid =
            gid (debriefSlot now false (h1.filter (fun s => decide (s.rid = some a)))
              emptyState))))
            (debriefSlot now false (h1.filter (fun s => decide (s.rid = some a))) emptyState)
      have hmem : a ∈ h1.filterMap TestResult.rid := by
        unfold newIds at ha
        have hfd : a ∈ firstDedup (h1.filterMap TestResult.rid) := (List.mem_filter.1 ha).1
        exact (mem_firstDedup _ _).1 hfd
      obtain ⟨x, hx, hxid⟩ := List.mem_filterMap.1 hmem
      have hfil : x ∈ h1.filter (fun s => decide (s.rid = some a)) :=
        List.mem_filter.2 ⟨hx, by simp [hxid]⟩
      have hne : h1.filter (fun s => decide (s.rid = some a)) ≠ [] := by
        intro h0
        rw [h0] at hfil
        cases hfil
      have hg : gid (debriefSlot now false
          (h1.filter (fun s => decide (s.rid = some a))) emptyState) = some a :=
        gid_debriefSlot now false (some a) _ emptyState
          (fun y hy => of_decide_eq_true (List.mem_filter.1 hy).2) hne
      rw [hg, List.filter_append, debriefSlot_append]
    · -- children newly created by h2: h1 contributes nothing to their slots
      apply List.map_congr_left
      intro a ha
      show debriefSlot now false ((h1 ++ h2).filter (fun s => decide (s.rid = some a)))
            emptyState
        = debriefSlot now false (h2.filter (fun s => decide (s.rid = some a))) emptyState
      have hnotin : a ∉ h1.filterMap TestResult.rid := by
        unfold newIds at ha
        have hseen := (List.mem_filter.1 ha).2
        intro hmem
        have : some a ∈ gids ts ++ (newIds h1 (gids ts)).map some := by
          by_cases hst : some a ∈ gids ts
          · exact List.mem_append.2 (Or.inl hst)
          · refine List.mem_append.2 (Or.inr ?_)
            refine List.mem_map.2 ⟨a, ?_, rfl⟩
            unfold newIds
            exact List.mem_filter.2 ⟨(mem_firstDedup _ _).2 hmem, by simp [hst]⟩
        simp only [decide_eq_true_eq] at hseen
        exact hseen this
      have hfil1 : h1.filter (fun s => decide (s.rid = some a)) = [] := by
        rw [List.filter_eq_nil_iff]
        intro s hsmem hdec
        exact hnotin (List.mem_filterMap.2 ⟨s, hsmem, of_decide_eq_true hdec⟩)
      rw [List.filter_append, hfil1, List.nil_append]

theorem debriefTests_nil_left (now : Nat) (cl : Bool) (ts : List TestState) :
    debriefTests now cl [] ts = ts := by
  rw [debriefTests.eq_def]
  simp [newIds, firstDedup]

theorem tests_build_hydr (now : Nat) (r : TestResult) (t : TestState) :
    (build now r false t).tests = debriefTests now false (hydrTests r) t.tests := by
  cases hts : r.tests with
  | none =>
    rw [build_tests_noKids (Or.inl hts)]
    unfold hydrTests
    rw [hts]
    simp [debriefTests_nil_left]
  | some l =>
    cases l with
    | nil =>
      rw [build_tests_noKids (Or.inr hts)]
      unfold hydrTests
      rw [hts]
      simp [debriefTests_nil_left]
    | cons rc rcs =>
      rw [build_tests_kids hts]
      unfold hydrTests
      rw [hts]
      rfl

theorem tests_debriefSlot (now : Nat) (sub : List TestResult) (c : TestState) :
    (debriefSlot now false sub c).tests
      = debriefTests now false (joinHyd sub) c.tests := by
  induction sub generalizing c with
  | nil =>
    rw [debriefSlot_nil]
    rw [show joinHyd [] = [] from rfl, debriefTests_nil_left]
  | cons s sub' ih =>
    rw [debriefSlot_cons, ih, tests_build_hydr, hydrTests_stampLast]
    rw [← debriefTests_append]
    rw [show joinHyd (s :: sub') = hydrTests s ++ joinHyd sub' by
      unfold joinHyd
      simp]

theorem slotRes_eq_merge (now : Nat) (t : TestState) (s : TestResult) :
    mergeResults now t.result
        ((stampLast now s).withStatus (some (getRecursiveStatus (stampLast now s))))
      = slotRes now (baseFirst now t) s := by
  cases h : s.statsFirst with
  | some v =>
    have hs : ((stampLast now s).withStatus
        (some (getRecursiveStatus (stampLast now s)))).statsFirst.isSome := by
      simp [h]
    rw [mergeResults_of_first_isSome hs]
    simp [slotRes, h]
  | none =>
    have hs1 : ¬ ((stampLast now s).withStatus
        (some (getRecursiveStatus (stampLast now s)))).statsFirst.isSome := by
      simp [h]
    have hs2 : ¬ s.statsFirst.isSome := by simp [h]
    simp only [mergeResults, slotRes, hs1, hs2, if_false, Bool.false_eq_true, baseFirst]

theorem result_debriefSlot_snoc (now : Nat) (sub : List TestResult) (s : TestResult)
    (c : TestState) :
    (debriefSlot now false (sub ++ [s]) c).result
      = some (slotRes now (chainF sub (baseFirst now c)) s) := by
  rw [debriefSlot_append, debriefSlot_cons, debriefSlot_nil, build_result,
    slotRes_eq_merge, baseFirst_debriefSlot]

theorem hasKids_iff {s : TestResult} :
    hasKids s = true ↔ ∃ rc rcs, s.tests = some (rc :: rcs) := by
  unfold hasKids
  cases hts : s.tests with
  | none => simp
  | some l => cases l <;> simp

theorem hasKids_false_iff {s : TestResult} :
    hasKids s = false ↔ (s.tests = none ∨ s.tests = some []) := by
  unfold hasKids
  cases hts : s.tests with
  | none => simp
  | some l => cases l <;> simp

theorem status_build_stamped (now : Nat) (s : TestResult) (c : TestState) :
    (build now (stampLast now s) false c).status
      = if hasKids s then
          parseStatus ((build now (stampLast now s) false c).tests.map TestState.status)
        else getRecursiveStatus s := by
  cases hk : hasKids s with
  | true =>
    obtain ⟨rc, rcs, hts⟩ := hasKids_iff.1 hk
    have hts' : (stampLast now s).tests = some (rc :: rcs) := by
      rw [tests_stampLast]
      exact hts
    simp only [hk, if_true]
    exact build_status_kids hts' now false c
  | false =>
    have hts := hasKids_false_iff.1 hk
    have hts' : (stampLast now s).tests = none ∨ (stampLast now s).tests = some [] := by
      rw [tests_stampLast]
      exact hts
    simp only [hk, Bool.false_eq_true, if_false]
    rw [build_status_noKids hts', getRecursiveStatus_stampLast]

theorem status_debriefSlot_snoc (now : Nat) (sub : List TestResult) (s : TestResult)
    (c : TestState) :
    (debriefSlot now false (sub ++ [s]) c).status
      = if hasKids s then
          parseStatus ((debriefSlot now false (sub ++ [s]) c).tests.map TestState.status)
        else getRecursiveStatus s := by
  rw [debriefSlot_append, debriefSlot_cons, debriefSlot_nil]
  exact status_build_stamped now s _

theorem all_map_gid (ts : List TestState) (P : Option String → Bool) :
    (ts.map gid).all P = ts.all (fun c => P (gid c)) := by
  induction ts with
  | nil => rfl
  | cons c cs ih => simp [List.all_cons, ih]

theorem partial_build_stamped (now : Nat) (s : TestResult) (c : TestState) :
    (build now (stampLast now s) false c).partialFlag
      = if hasKids s then
          !((gids c.tests).all (fun g => decide (g ∈ (hydrTests s).map TestResult.rid)))
        else c.partialFlag := by
  cases hk : hasKids s with
  | true =>
    obtain ⟨rc, rcs, hts⟩ := hasKids_iff.1 hk
    have hts' : (stampLast now s).tests = some (rc :: rcs) := by
      rw [tests_stampLast]
      exact hts
    simp only [hk, if_true]
    rw [build_partial_kids hts']
    have hhyd : (rc :: rcs).map hydrateTestResult = hydrTests s := by
      unfold hydrTests
      rw [hts]
      rfl
    rw [hhyd]
    congr 1
    unfold gids
    rw [all_map_gid]
  | false =>
    have hts := hasKids_false_iff.1 hk
    have hts' : (stampLast now s).tests = none ∨ (stampLast now s).tests = some [] := by
      rw [tests_stampLast]
      exact hts
    simp only [hk, Bool.false_eq_true, if_false]
    exact build_partial_noKids hts' now false c

theorem pwalk_debriefSlot (now : Nat) :
    ∀ (sub : List TestResult) (c : TestState),
      ((debriefSlot now false sub c).partialFlag,
        gids (debriefSlot now false sub c).tests)
        = pwalk sub c.partialFlag (gids c.tests) := by
  intro sub
  induction sub with
  | nil =>
    intro c
    rw [debriefSlot_nil]
    rfl
  | cons s sub' ih =>
    intro c
    rw [debriefSlot_cons, ih (build now (stampLast now s) false c)]
    cases hk : hasKids s with
    | true =>
      simp only [pwalk, hk, if_true]
      congr 1
      · rw [partial_build_stamped, hk]
        simp
      · rw [tests_build_hydr, hydrTests_stampLast, gids_debriefTests]
    | false =>
      simp only [pwalk, hk, Bool.false_eq_true, if_false]
      congr 1
      · rw [partial_build_stamped, hk]
        simp
      · have hh : hydrTests s = [] := by
          rcases hasKids_false_iff.1 hk with h | h <;>
            (unfold hydrTests; rw [h]) <;> rfl
        rw [tests_build_hydr, hydrTests_stampLast, hh, debriefTests_nil_left]

theorem pwalk_append (u v : List TestResult) (p : Bool) (G : List (Option String)) :
    pwalk (u ++ v) p G = pwalk v (pwalk u p G).1 (pwalk u p G).2 := by
  induction u generalizing p G with
  | nil => rfl
  | cons s u' ih =>
    cases hk : hasKids s <;>
      simp only [List.cons_append, pwalk, hk, Bool.false_eq_true, if_true, if_false] <;>
      exact ih _ _

theorem pwalk_G_mono :
    ∀ (sub : List TestResult) (p : Bool) (G : List (Option String)),
      ∀ g ∈ G, g ∈ (pwalk sub p G).2 := by
  intro sub
  induction sub with
  | nil =>
    intro p G g hg
    exact hg
  | cons s sub' ih =>
    intro p G g hg
    cases hk : hasKids s <;>
      simp only [pwalk, hk, Bool.false_eq_true, if_true, if_false]
    · exact ih _ _ g hg
    · exact ih _ _ g (List.mem_append.2 (Or.inl hg))

theorem pwalk_saturates :
    ∀ (sub : List TestResult) (p : Bool) (G : List (Option String)),
      ∀ s ∈ sub, hasKids s = true →
        ∀ a ∈ (hydrTests s).filterMap TestResult.rid, some a ∈ (pwalk sub p G).2 := by
  intro sub
  induction sub with
  | nil =>
    intro p G s hs
    cases hs
  | cons s0 sub' ih =>
    intro p G s hs hk a hha
    rcases List.mem_cons.1 hs with rfl | hs'
    · simp only [pwalk, hk, if_true]
      apply pwalk_G_mono
      by_cases hG : some a ∈ G
      · exact List.mem_append.2 (Or.inl hG)
      · refine List.mem_append.2 (Or.inr (List.mem_map.2 ⟨a, ?_, rfl⟩))
        unfold newIds
        exact List.mem_filter.2 ⟨(mem_firstDedup _ _).2 hha, by simp [hG]⟩
    · cases hk0 : hasKids s0 <;>
        simp only [pwalk, hk0, Bool.false_eq_true, if_true, if_false] <;>
        exact ih _ _ s hs' hk a hha

theorem newIds_nil_of_sub (hs : List TestResult) (G : List (Option String))
    (h : ∀ a ∈ hs.filterMap TestResult.rid, some a ∈ G) :
    newIds hs G = [] := by
  unfold newIds
  rw [List.filter_eq_nil_iff]
  intro a ha hdec
  exact absurd (h a ((mem_firstDedup _ _).1 ha)) (of_decide_eq_true hdec)

theorem pwalk_G_const_of_saturated (G : List (Option String)) :
    ∀ (sub : List TestResult) (q : Bool),
      (∀ s ∈ sub, hasKids s = true →
        ∀ a ∈ (hydrTests s).filterMap TestResult.rid, some a ∈ G) →
      (pwalk sub q G).2 = G := by
  intro sub
  induction sub with
  | nil =>
    intro q hsat
    rfl
  | cons s sub' ih =>
    intro q hsat
    cases hk : hasKids s with
    | true =>
      have hnil : newIds (hydrTests s) G = [] :=
        newIds_nil_of_sub _ _ (hsat s (List.mem_cons_self _ _) hk)
      simp only [pwalk, hk, if_true, hnil, List.map_nil, List.append_nil]
      exact ih _ (fun s' hs' => hsat s' (List.mem_cons_of_mem _ hs'))
    | false =>
      simp only [pwalk, hk, Bool.false_eq_true, if_false]
      exact ih _ (fun s' hs' => hsat s' (List.mem_cons_of_mem _ hs'))

theorem pwalk_replay :
    ∀ (sub : List TestResult) (p : Bool) (G : List (Option String)),
      pwalk sub (pwalk sub p G).1 (pwalk sub p G).2 = pwalk sub p G := by
  intro sub
  induction sub using List.reverseRecOn with
  | nil =>
    intro p G
    rfl
  | append_singleton u s ih =>
    intro p G
    simp only [pwalk_append]
    cases hk : hasKids s with
    | false =>
      simp only [pwalk, hk, Bool.false_eq_true, if_false]
      rw [ih]
    | true =>
      simp only [pwalk, hk, if_true]
      have hsatu : ∀ s' ∈ u, hasKids s' = true →
          ∀ a ∈ (hydrTests s').filterMap TestResult.rid,
            some a ∈ (pwalk u p G).2 ++
              (newIds (hydrTests s) (pwalk u p G).2).map some := by
        intro s' hs' hk' a hha
        exact List.mem_append.2 (Or.inl (pwalk_saturates u p G s' hs' hk' a hha))
      have hGconst := pwalk_G_const_of_saturated _ u
        (!((pwalk u p G).2.all (fun g =>
          decide (g ∈ (hydrTests s).map TestResult.rid)))) hsatu
      rw [hGconst]
      have hsats : ∀ a ∈ (hydrTests s).filterMap TestResult.rid,
          some a ∈ (pwalk u p G).2 ++
            (newIds (hydrTests s) (pwalk u p G).2).map some := by
        intro a hha
        by_cases hG : some a ∈ (pwalk u p G).2
        · exact List.mem_append.2 (Or.inl hG)
        · refine List.mem_append.2 (Or.inr (List.mem_map.2 ⟨a, ?_, rfl⟩))
          unfold newIds
          exact List.mem_filter.2 ⟨(mem_firstDedup _ _).2 hha, by simp [hG]⟩
      have hnil2 : newIds (hydrTests s)
          ((pwalk u p G).2 ++ (newIds (hydrTests s) (pwalk u p G).2).map some) = [] :=
        newIds_nil_of_sub _ _ hsats
      rw [hnil2, List.map_nil, List.append_nil]
      congr 2
      rw [List.all_append]
      have hnews : ((newIds (hydrTests s) (pwalk u p G).2).map some).all
          (fun g => decide (g ∈ (hydrTests s).map TestResult.rid)) = true := by
        rw [List.all_eq_true]
        intro g hg
        obtain ⟨a, haid, rfl⟩ := List.mem_map.1 hg
        have hmem : a ∈ (hydrTests s).filterMap TestResult.rid := by
          unfold newIds at haid
          exact (mem_firstDedup _ _).1 (List.mem_filter.1 haid).1
        obtain ⟨x, hx, hxid⟩ := List.mem_filterMap.1 hmem
        simp only [decide_eq_true_eq]
        exact List.mem_map.2 ⟨x, hx, hxid⟩
      rw [hnews, Bool.and_true]

theorem rsizeL_filter_le (p : TestResult → Bool) (l : List TestResult) :
    rsizeL (l.filter p) ≤ rsizeL l := by
  induction l with
  | nil => exact Nat.le_refl _
  | cons r rs ih =>
    by_cases h : p r
    · simp only [List.filter_cons, h, if_true, rsizeL]
      omega
    · simp only [List.filter_cons, h, Bool.false_eq_true, if_false, rsizeL]
      have := rsize_pos r
      omega

theorem rsizeL_append (l1 l2 : List TestResult) :
    rsizeL (l1 ++ l2) = rsizeL l1 + rsizeL l2 := by
  induction l1 with
  | nil => simp [rsizeL]
  | cons r rs ih =>
    simp only [List.cons_append, rsizeL, List.append_eq, ih]
    omega

theorem rsize_of_tests_eq {r : TestResult} {l : List TestResult}
    (h : r.tests = some l) : rsize r = 1 + rsizeL l := by
  cases r with
  | mk i n d s f st ts =>
    simp only [TestResult.tests] at h
    subst h
    rfl

theorem rsize_hydrate_le (r : TestResult) :
    rsize (hydrateTestResult r) ≤ rsize r := by
  cases r with
  | mk i n d s f st ts =>
    cases i with
    | none =>
      cases ts <;> simp only [hydrateTestResult, TestResult.rid, rsize] <;> omega
    | some a => simp [hydrateTestResult, TestResult.rid]

theorem rsizeL_map_hydrate_le (l : List TestResult) :
    rsizeL (l.map hydrateTestResult) ≤ rsizeL l := by
  induction l with
  | nil => exact Nat.le_refl _
  | cons r rs ih =>
    simp only [List.map_cons, rsizeL]
    have := rsize_hydrate_le r
    omega

theorem rsizeL_hydrTests_lt (s : TestResult) : rsizeL (hydrTests s) < rsize s := by
  cases hts : s.tests with
  | none =>
    unfold hydrTests
    rw [hts]
    have := rsize_pos s
    simp only [Option.getD_none, List.map_nil]
    exact this
  | some l =>
    unfold hydrTests
    rw [hts]
    have h1 := rsizeL_map_hydrate_le l
    have h2 : rsize s = 1 + rsizeL l := rsize_of_tests_eq hts
    simp only [Option.getD_some]
    omega

theorem rsizeL_joinHyd_len (sub : List TestResult) :
    rsizeL (joinHyd sub) + sub.length ≤ rsizeL sub := by
  induction sub with
  | nil => exact Nat.le_refl _
  | cons s sub' ih =>
    have h1 : joinHyd (s :: sub') = hydrTests s ++ joinHyd sub' := by
      unfold joinHyd
      simp
    rw [h1, rsizeL_append]
    have h2 := rsizeL_hydrTests_lt s
    simp only [List.length_cons, rsizeL]
    omega

theorem rsizeL_joinHyd_lt {sub : List TestResult} (h : sub ≠ []) :
    rsizeL (joinHyd sub) < rsizeL sub := by
  have h1 := rsizeL_joinHyd_len sub
  have h2 : 1 ≤ sub.length := by
    cases sub with
    | nil => exact absurd rfl h
    | cons a l => simp
  omega

theorem news_all_mem (hs : List TestResult) (G : List (Option String)) :
    ((newIds hs G).map some).all
      (fun g => decide (g ∈ hs.map TestResult.rid)) = true := by
  rw [List.all_eq_true]
  intro g hg
  obtain ⟨a, haid, rfl⟩ := List.mem_map.1 hg
  have hmem : a ∈ hs.filterMap TestResult.rid := by
    unfold newIds at haid
    exact (mem_firstDedup _ _).1 (List.mem_filter.1 haid).1
  obtain ⟨x, hx, hxid⟩ := List.mem_filterMap.1 hmem
  simp only [decide_eq_true_eq]
  exact List.mem_map.2 ⟨x, hx, hxid⟩

theorem gid_new_slot (now : Nat) (hs : List TestResult) {a : String}
    (hmem : a ∈ hs.filterMap TestResult.rid) :
    gid (debriefSlot now false (hs.filter (fun s => decide (s.rid = some a)))
      emptyState) = some a := by
  obtain ⟨x, hx, hxid⟩ := List.mem_filterMap.1 hmem
  have hfil : x ∈ hs.filter (fun s => decide (s.rid = some a)) :=
    List.mem_filter.2 ⟨hx, by simp [hxid]⟩
  have hne : hs.filter (fun s => decide (s.rid = some a)) ≠ [] := by
    intro h0
    rw [h0] at hfil
    cases hfil
  exact gid_debriefSlot now false (some a) _ emptyState
    (fun y hy => of_decide_eq_true (List.mem_filter.1 hy).2) hne

theorem status_debriefSlot_snoc_kids {s : TestResult} (hk : hasKids s = true)
    (now : Nat) (u : List TestResult) (c : TestState) :
    (debriefSlot now false (u ++ [s]) c).status
      = parseStatus ((debriefSlot now false (u ++ [s]) c).tests.map TestState.status) := by
  rw [status_debriefSlot_snoc, hk]
  simp

theorem status_debriefSlot_snoc_noKids {s : TestResult} (hk : hasKids s = false)
    (now : Nat) (u : List TestResult) (c : TestState) :
    (debriefSlot now false (u ++ [s]) c).status = getRecursiveStatus s := by
  rw [status_debriefSlot_snoc, hk]
  simp

theorem all_gid_debriefTests (now : Nat) (hs : List TestResult) (ts : List TestState)
    (P : Option String → Bool)
    (hnews : ∀ a ∈ hs.filterMap TestResult.rid, P (some a) = true) :
    (debriefTests now false hs ts).all (fun c => P (gid c))
      = ts.all (fun c => P (gid c)) := by
  rw [← all_map_gid, ← all_map_gid]
  rw [show List.map gid (debriefTests now false hs ts)
        = gids (debriefTests now false hs ts) from rfl,
      gids_debriefTests, List.all_append]
  have htrue : ((newIds hs (gids ts)).map some).all P = true := by
    rw [List.all_eq_true]
    intro g hg
    obtain ⟨a, haid, rfl⟩ := List.mem_map.1 hg
    have hmem : a ∈ hs.filterMap TestResult.rid := by
      unfold newIds at haid
      exact (mem_firstDedup _ _).1 (List.mem_filter.1 haid).1
    exact hnews a hmem
  rw [htrue, Bool.and_true]
  rfl

theorem replay_aux (n : Nat) :
    (∀ (sub : List TestResult) (c : TestState) (now : Nat), rsizeL sub ≤ n →
      debriefSlot now false sub (debriefSlot now false sub c)
        = debriefSlot now false sub c) ∧
    (∀ (hs : List TestResult) (ts : List TestState) (now : Nat), rsizeL hs ≤ n →
      debriefTests now false hs (debriefTests now false hs ts)
        = debriefTests now false hs ts) ∧
    (∀ (r : TestResult) (t : TestState) (now : Nat), rsize r ≤ n →
      build now r false (build now r false t) = build now r false t) := by
  induction n using Nat.strong_induction_on with
  | _ n ih =>
  have hP3 : ∀ (sub : List TestResult) (c : TestState) (now : Nat), rsizeL sub ≤ n →
      debriefSlot now false sub (debriefSlot now false sub c)
        = debriefSlot now false sub c := by
    intro sub c now hn
    rcases List.eq_nil_or_concat sub with rfl | ⟨u, s, rfl⟩
    · simp
    · simp only [List.concat_eq_append] at hn ⊢
      have hsubne : u ++ [s] ≠ ([] : List TestResult) := by simp
      have hJ : rsizeL (joinHyd (u ++ [s])) < n :=
        lt_of_lt_of_le (rsizeL_joinHyd_lt hsubne) hn
      have htests_eq :
          (debriefSlot now false (u ++ [s])
            (debriefSlot now false (u ++ [s]) c)).tests
          = (debriefSlot now false (u ++ [s]) c).tests := by
        rw [tests_debriefSlot, tests_debriefSlot]
        exact (ih (rsizeL (joinHyd (u ++ [s]))) hJ).2.1 _ _ now (Nat.le_refl _)
      apply TestState.ext
      · rw [result_debriefSlot_snoc, result_debriefSlot_snoc]
        cases hsf : s.statsFirst with
        | some v => simp [slotRes, hsf]
        | none =>
          have h1 : ∀ z : Nat, chainF [s] z = z := by
            intro z
            simp [chainF, hsf]
          have hbase : baseFirst now (debriefSlot now false (u ++ [s]) c)
              = chainF u (baseFirst now c) := by
            rw [baseFirst_debriefSlot, chainF_append, h1]
          rw [hbase, chainF_pers]
      · cases hk : hasKids s with
        | true =>
          rw [status_debriefSlot_snoc_kids hk, status_debriefSlot_snoc_kids hk,
            htests_eq]
        | false =>
          rw [status_debriefSlot_snoc_noKids hk, status_debriefSlot_snoc_noKids hk]
      · rw [selected_debriefSlot, selected_debriefSlot]
      · rw [expanded_debriefSlot, expanded_debriefSlot]
      · have h1 := pwalk_debriefSlot now (u ++ [s]) c
        have h2 := pwalk_debriefSlot now (u ++ [s]) (debriefSlot now false (u ++ [s]) c)
        have hp : (debriefSlot now false (u ++ [s]) c).partialFlag
            = (pwalk (u ++ [s]) c.partialFlag (gids c.tests)).1 := by
          rw [← h1]
        have hg : gids (debriefSlot now false (u ++ [s]) c).tests
            = (pwalk (u ++ [s]) c.partialFlag (gids c.tests)).2 := by
          rw [← h1]
        have h2' := congrArg Prod.fst h2
        dsimp only at h2'
        rw [hp, hg, pwalk_replay] at h2'
        rw [h2']
        exact hp.symm
      · exact htests_eq
  have hP2 : ∀ (hs : List TestResult) (ts : List TestState) (now : Nat), rsizeL hs ≤ n →
      debriefTests now false hs (debriefTests now false hs ts)
        = debriefTests now false hs ts := by
    intro hs ts now hn
    have hpoint : ∀ c' ∈ debriefTests now false hs ts,
        debriefSlot now false (hs.filter (fun s => decide (s.rid = gid c'))) c' = c' := by
      intro c' hc'
      rw [debriefTests.eq_def] at hc'
      rcases List.mem_append.1 hc' with hmem | hmem
      · obtain ⟨c, hc, rfl⟩ := List.mem_map.1 hmem
        have hgid : gid (debriefSlot now false
            (hs.filter (fun s => decide (s.rid = gid c))) c) = gid c := by
          apply gid_debriefSlot_of_gid
          · intro s hsmem
            exact of_decide_eq_true (List.mem_filter.1 hsmem).2
          · rfl
        rw [hgid]
        exact hP3 _ c now (le_trans (rsizeL_filter_le _ _) hn)
      · obtain ⟨a, ha, rfl⟩ := List.mem_map.1 hmem
        have hmem' : a ∈ hs.filterMap TestResult.rid := by
          unfold newIds at ha
          exact (mem_firstDedup _ _).1 (List.mem_filter.1 ha).1
        rw [gid_new_slot now hs hmem']
        exact hP3 _ emptyState now (le_trans (rsizeL_filter_le _ _) hn)
    have hnil : newIds hs (List.map gid (debriefTests now false hs ts)) = [] := by
      apply newIds_nil_of_sub
      intro a ha
      show some a ∈ List.map gid (debriefTests now false hs ts)
      rw [show List.map gid (debriefTests now false hs ts)
            = gids (debriefTests now false hs ts) from rfl,
          gids_debriefTests]
      by_cases hst : some a ∈ gids ts
      · exact List.mem_append.2 (Or.inl hst)
      · refine List.mem_append.2 (Or.inr (List.mem_map.2 ⟨a, ?_, rfl⟩))
        unfold newIds
        exact List.mem_filter.2 ⟨(mem_firstDedup _ _).2 ha, by simp [hst]⟩
    conv_lhs => rw [debriefTests.eq_def]
    rw [hnil, List.map_nil, List.append_nil]
    have hmap : (debriefTests now false hs ts).map
        (fun c => debriefSlot now false
          (hs.filter (fun s => decide (s.rid = gid c))) c)
        = (debriefTests now false hs ts).map (fun c => c) :=
      List.map_congr_left hpoint
    rw [hmap, List.map_id']
  have hP1 : ∀ (r : TestResult) (t : TestState) (now : Nat), rsize r ≤ n →
      build now r false (build now r false t) = build now r false t := by
    intro r t now hn
    have hH : rsizeL (hydrTests r) ≤ n :=
      le_trans (Nat.le_of_lt (rsizeL_hydrTests_lt r)) hn
    have htt : (build now r false (build now r false t)).tests
        = (build now r false t).tests := by
      rw [tests_build_hydr, tests_build_hydr]
      exact hP2 _ _ now hH
    apply TestState.ext
    · rw [build_result, build_result]
      exact congrArg some (mergeResults_replay now t.result _)
    · match hr : r.tests with
      | some (rc :: rcs) =>
        rw [build_status_kids hr, build_status_kids hr, htt]
      | none =>
        rw [build_status_noKids (Or.inl hr), build_status_noKids (Or.inl hr)]
      | some [] =>
        rw [build_status_noKids (Or.inr hr), build_status_noKids (Or.inr hr)]
    · rw [build_selected, build_selected]
    · rw [build_expanded, build_expanded]
    · match hr : r.tests with
      | some (rc :: rcs) =>
        rw [build_partial_kids hr, build_partial_kids hr]
        congr 1
        have hhyd : List.map hydrateTestResult (rc :: rcs) = hydrTests r := by
          unfold hydrTests
          rw [hr]
          rfl
        rw [hhyd, tests_build_hydr]
        exact all_gid_debriefTests now (hydrTests r) t.tests
          (fun g => decide (g ∈ List.map TestResult.rid (hydrTests r)))
          (by
            intro a hmem
            obtain ⟨x, hx, hxid⟩ := List.mem_filterMap.1 hmem
            simp only [decide_eq_true_eq]
            exact List.mem_map.2 ⟨x, hx, hxid⟩)
      | none =>
        rw [build_partial_noKids (Or.inl hr), build_partial_noKids (Or.inl hr)]
      | some [] =>
        rw [build_partial_noKids (Or.inr hr), build_partial_noKids (Or.inr hr)]
    · exact htt
  exact ⟨hP3, hP2, hP1⟩

/-- C3: for every Test and every result fragment, building the same
fragment twice with cleanup off yields the same tree state — status, merged
result and children — as building it once (all at the same current time,
which is an explicit input of the model). -/
theorem build_idempotent_without_cleanup :
    ∀ (now : Nat) (r : TestResult) (t : TestState),
      (build now r false (build now r false t)).status
        = (build now r false t).status ∧
      (build now r false (build now r false t)).result
        = (build now r false t).result ∧
      (build now r false (build now r false t)).tests
        = (build now r false t).tests := by
  intro now r t
  have h := (replay_aux (rsize r)).2.2 r t now (Nat.le_refl _)
  exact ⟨by rw [h], by rw [h], by rw [h]⟩

end Lode
